import Mathlib

/-!
Shallow embedding of the process-management core of `src/process.c`
(process table, ready/blocked/zombie queue discipline, round-robin
scheduler, context switch, zombie reaper), together with proofs that
settle the specification claims about it.

Modelling conventions:
* Machine `u32` values are `Nat` with an explicit `% 2^32` wherever the C
  code can overflow (`next_pid++`, `process_count--`, pointer arithmetic).
* Heap-allocated `Process` structures are identified by the address the
  allocator returned for them (the C code's `Process*` value); the store
  `procs` maps each live address to the record's contents.
* The three intrusive doubly-linked queues are modelled as lists of
  process addresses ordered from the head of the list.  Head insertion is
  `i :: q`; the C unlink (`if (*queue == proc) advance head else splice
  prev/next`) removes the node's single occurrence, i.e. `qerase q i`;
  a node's `next` pointer is its successor in whichever queue currently
  holds it, and `NULL` when it is in no queue (the code nulls `prev`/`next`
  on removal).  This is exactly the behaviour of the pointer code on
  well-formed (acyclic, consistent) queues, which is what the claims
  quantify over.
* The memory module is external (only its interface is in `src/`), so it
  is modelled as an oracle: `allocs n` is the address returned by the
  n-th `memory_alloc` call (`0` = allocation failure, the C `NULL`), and
  `memory_free` appends the freed address to `freedLog`.
* Dereferencing a dangling pointer is undefined behaviour in the C code;
  the model makes such lookups fail soft (no-op / not-READY), and every
  theorem about a record carries the hypothesis that it is live.
-/

namespace OpenSovix

/-- Process states, from the `ProcessState` enum used by `process.c`. -/
inductive ProcessState where
  | NEW
  | READY
  | RUNNING
  | BLOCKED
  | SUSPENDED
  | ZOMBIE
  | DEAD
deriving DecidableEq, Repr

/-- The two error codes `process.c` actually returns. -/
inductive ErrorCode where
  | ERR_SUCCESS
  | ERR_INVALID_ARG
deriving DecidableEq, Repr

def KB : Nat := 1024

/-- `2^32`: the modulus of the kernel's `u32` arithmetic. -/
def U32 : Nat := 4294967296

/-- Modelled from the spec: `MAX_PROCESSES` is defined in `process.h`,
which is not part of `src/`; the spec only says the table is a bounded
registry.  The concrete bound is irrelevant to every claim; we fix 16. -/
def MAX_PROCESSES : Nat := 16

/-- The contents of one `Process` structure (the PCB) of `process.c`.
`registers` is the 16-entry `u32` snapshot; the bounded `name` buffer's
size is in the missing header, so the label is kept as a whole string. -/
structure ProcRec where
  pid : Nat
  name : String
  state : ProcessState
  priority : Nat
  entry_point : Nat
  stack_base : Nat
  stack_size : Nat
  heap_base : Nat
  heap_size : Nat
  registers : List Nat
deriving DecidableEq, Repr

/-- The global state of `process.c`: the static variables
(`process_table`, `process_count`, `next_pid`, the three queue heads,
`current_process`, the scheduler's `static Process* last`), the store of
live PCB allocations, the live CPU register file, and the memory-module
oracle. -/
structure MState where
  procs : List (Nat × ProcRec)
  process_table : List (Option Nat)
  process_count : Nat
  next_pid : Nat
  ready_queue : List Nat
  blocked_queue : List Nat
  zombie_queue : List Nat
  current_process : Option Nat
  last : Option Nat
  cpuRegs : List Nat
  allocs : Nat → Nat
  allocPtr : Nat
  freedLog : List Nat

/-- Look up a live PCB by its address. -/
def plook : List (Nat × ProcRec) → Nat → Option ProcRec
  | [], _ => none
  | (k, v) :: rest, i => if k = i then some v else plook rest i

/-- Overwrite the PCB stored at address `i` (first matching entry). -/
def supd : List (Nat × ProcRec) → Nat → ProcRec → List (Nat × ProcRec)
  | [], _, _ => []
  | (k, v) :: rest, i, r => if k = i then (k, r) :: rest else (k, v) :: supd rest i r

/-- Drop the PCB stored at address `i` (models `memory_free(curr)`:
the structure ceases to be live). -/
def serase : List (Nat × ProcRec) → Nat → List (Nat × ProcRec)
  | [], _ => []
  | (k, v) :: rest, i => if k = i then rest else (k, v) :: serase rest i

/-- Unlink one node from a queue (the doubly-linked-list surgery of
`process_remove_from_queue` on a well-formed queue); removing an absent
node is a no-op, as in the code (its `prev`/`next` are `NULL`). -/
def qerase : List Nat → Nat → List Nat
  | [], _ => []
  | x :: xs, i => if x = i then xs else x :: qerase xs i

/-- The suffix of a queue strictly after node `i`: the chain reached from
`i->next`.  Empty when `i` is not in the queue (`i->next == NULL`). -/
def suffixAfter : List Nat → Nat → List Nat
  | [], _ => []
  | x :: xs, i => if x = i then xs else suffixAfter xs i

/-- `process_reap_zombies`' table scan: clear the first slot holding `i`. -/
def clearFirst : List (Option Nat) → Nat → List (Option Nat)
  | [], _ => []
  | o :: rest, i => if o = some i then none :: rest else o :: clearFirst rest i

/-- `process_create`'s table scan: store `i` into the first empty slot
(no slot is changed when the table is full, as in the C loop). -/
def insertFirstNone : List (Option Nat) → Nat → List (Option Nat)
  | [], _ => []
  | o :: rest, i =>
    match o with
    | none => some i :: rest
    | some j => some j :: insertFirstNone rest i

/-- One `memory_alloc` call: consume the next oracle answer
(`0` models a `NULL` return). -/
def memAlloc (s : MState) : Nat × MState :=
  (s.allocs s.allocPtr, { s with allocPtr := s.allocPtr + 1 })

/-- One `memory_free` call: record the released address. -/
def memFree (s : MState) (a : Nat) : MState :=
  { s with freedLog := s.freedLog ++ [a] }

/-- `process_remove_from_queue` (process.c:141-168): pick the queue named
by `st` and unlink the node; any other state is the `default:` no-op. -/
def process_remove_from_queue (s : MState) (i : Nat) (st : ProcessState) : MState :=
  match st with
  | ProcessState.READY => { s with ready_queue := qerase s.ready_queue i }
  | ProcessState.BLOCKED => { s with blocked_queue := qerase s.blocked_queue i }
  | ProcessState.ZOMBIE => { s with zombie_queue := qerase s.zombie_queue i }
  | _ => s

/-- `process_add_to_queue` (process.c:171-192): head insertion into the
queue named by `st`; any other state is the `default:` no-op. -/
def process_add_to_queue (s : MState) (i : Nat) (st : ProcessState) : MState :=
  match st with
  | ProcessState.READY => { s with ready_queue := i :: s.ready_queue }
  | ProcessState.BLOCKED => { s with blocked_queue := i :: s.blocked_queue }
  | ProcessState.ZOMBIE => { s with zombie_queue := i :: s.zombie_queue }
  | _ => s

/-- `process_set_state` (process.c:120-138): `NULL` yields
`ERR_INVALID_ARG`; otherwise write the new state, unlink from the old
state's queue, insert into the new state's queue, return `ERR_SUCCESS`.
No old-state/new-state validation is performed.  (A dangling pointer
would be undefined behaviour in C; the model leaves the state unchanged
and the theorems assume the record is live.) -/
def process_set_state (s : MState) (p : Option Nat) (st : ProcessState) :
    ErrorCode × MState :=
  match p with
  | none => (ErrorCode.ERR_INVALID_ARG, s)
  | some i =>
    match plook s.procs i with
    | none => (ErrorCode.ERR_SUCCESS, s)
    | some r =>
      let s1 := { s with procs := supd s.procs i { r with state := st } }
      let s2 := process_remove_from_queue s1 i r.state
      let s3 := process_add_to_queue s2 i st
      (ErrorCode.ERR_SUCCESS, s3)

/-- `process_init_context` (process.c:97-117): EIP := entry point,
ESP := top of stack minus the two pushed words (exit-trampoline return
address and initial EFLAGS), remaining registers zero.  The write of the
trampoline words into stack memory itself is not observable by any claim
and is not modelled. -/
def initRegisters (entry_point stack_base stack_size : Nat) : List Nat :=
  entry_point :: ((stack_base + stack_size - 8) % U32) :: List.replicate 14 0

/-- `process_create` (process.c:36-94), step for step: capacity check,
PCB allocation, `pid = next_pid++`, field initialisation, stack
allocation (rolling back the PCB on failure), heap allocation (rolling
back stack then PCB on failure), register priming, table insertion,
`process_count++`, and finally `process_set_state(proc, READY)`. -/
def process_create (s : MState) (name : String) (priority entry_point : Nat) :
    Option Nat × MState :=
  if MAX_PROCESSES ≤ s.process_count then (none, s)
  else
    let al1 := memAlloc s
    if al1.1 = 0 then (none, al1.2)
    else
      let pid := al1.2.next_pid
      let sA := { al1.2 with next_pid := (al1.2.next_pid + 1) % U32 }
      let stack_size := 16 * KB
      let al2 := memAlloc sA
      if al2.1 = 0 then (none, memFree al2.2 al1.1)
      else
        let heap_size := 64 * KB
        let al3 := memAlloc al2.2
        if al3.1 = 0 then (none, memFree (memFree al3.2 al2.1) al1.1)
        else
          let r : ProcRec :=
            { pid := pid
              name := name
              state := ProcessState.NEW
              priority := priority
              entry_point := entry_point
              stack_base := al2.1
              stack_size := stack_size
              heap_base := al3.1
              heap_size := heap_size
              registers := initRegisters entry_point al2.1 stack_size }
          let sB := { al3.2 with
                      procs := (al1.1, r) :: al3.2.procs
                      process_table := insertFirstNone al3.2.process_table al1.1
                      process_count := (al3.2.process_count + 1) % U32 }
          (some al1.1, (process_set_state sB (some al1.1) ProcessState.READY).2)

/-- `process_save_context` (process.c:318-332): the inline assembly
stores the 8 live general-purpose registers into `registers[0..7]`. -/
def process_save_context (s : MState) (i : Nat) : MState :=
  match plook s.procs i with
  | none => s
  | some r =>
    { s with procs := supd s.procs i { r with registers := s.cpuRegs ++ r.registers.drop 8 } }

/-- `process_restore_context` (process.c:335-361): load `registers[0..7]`
into the live register file.  The `iret` control transfer has no further
observable effect on the kernel state modelled here. -/
def process_restore_context (s : MState) (i : Nat) : MState :=
  match plook s.procs i with
  | none => s
  | some r => { s with cpuRegs := r.registers.take 8 }

/-- Direct field write `proc->state = st` (NOT `process_set_state`:
no queue is touched).  Used only by `process_switch`. -/
def setStateField (s : MState) (i : Nat) (st : ProcessState) : MState :=
  match plook s.procs i with
  | none => s
  | some r => { s with procs := supd s.procs i { r with state := st } }

/-- `process_switch` (process.c:300-315): `NULL` destination returns at
once; otherwise save `from`'s context and write `from->state = READY`
directly, write `to->state = RUNNING` directly, restore `to`'s context,
and set `current_process`. -/
def process_switch (s : MState) (fr dst : Option Nat) : MState :=
  match dst with
  | none => s
  | some t =>
    let s1 :=
      match fr with
      | none => s
      | some f => setStateField (process_save_context s f) f ProcessState.READY
    let s2 := setStateField s1 t ProcessState.RUNNING
    let s3 := process_restore_context s2 t
    { s3 with current_process := some t }

/-- Is the record at address `i` live and READY?  (`next->state !=
PROC_STATE_READY` in the walk of `scheduler_select_next`; a freed node
is skipped, cf. the dangling-pointer convention above.) -/
def isReadyB (s : MState) (i : Nat) : Bool :=
  match plook s.procs i with
  | some r => r.state = ProcessState.READY
  | none => false

/-- The queue whose chain currently holds node `i` (`[]` when it is in
no queue, in which case `i->next == NULL`). -/
def containing (s : MState) (i : Nat) : List Nat :=
  if i ∈ s.ready_queue then s.ready_queue
  else if i ∈ s.blocked_queue then s.blocked_queue
  else if i ∈ s.zombie_queue then s.zombie_queue
  else []

/-- `process_find` (process.c:364-371): first table slot, in slot order,
whose live record carries the name. -/
def process_find (s : MState) (name : String) : Option Nat :=
  findName s.procs s.process_table name
where
  findName (procs : List (Nat × ProcRec)) : List (Option Nat) → String → Option Nat
    | [], _ => none
    | none :: rest, nm => findName procs rest nm
    | some i :: rest, nm =>
      match plook procs i with
      | some r => if r.name = nm then some i else findName procs rest nm
      | none => findName procs rest nm

/-- `process_find_by_pid` (process.c:373-380). -/
def process_find_by_pid (s : MState) (pid : Nat) : Option Nat :=
  findPid s.procs s.process_table pid
where
  findPid (procs : List (Nat × ProcRec)) : List (Option Nat) → Nat → Option Nat
    | [], _ => none
    | none :: rest, p => findPid procs rest p
    | some i :: rest, p =>
      match plook procs i with
      | some r => if r.pid = p then some i else findPid procs rest p
      | none => findPid procs rest p

/-- The value of the static cursor after `if (!last) last = ready_queue;`
(`h` is the ready-queue head). -/
def cursorOf (s : MState) (h : Nat) : Nat :=
  match s.last with
  | some x => x
  | none => h

/-- The walk of `scheduler_select_next`: from the cursor's successor
(`last->next`, i.e. the chain after `lastv` in whatever queue holds it)
skipping non-READY nodes, then wrapping once to the ready-queue head. -/
def selectFrom (s : MState) (lastv : Nat) : Option Nat :=
  match (suffixAfter (containing s lastv) lastv).find? (fun i => isReadyB s i) with
  | some c => some c
  | none => s.ready_queue.find? (fun i => isReadyB s i)

/-- `scheduler_select_next` (process.c:264-297): empty ready queue falls
back to `process_find("idle")`; otherwise default the static cursor to
the ready-queue head if unset, walk (`selectFrom`), advance the cursor
to the record found, and fall back to idle if none is READY (the cursor
keeps its possibly-defaulted value in that case). -/
def scheduler_select_next (s : MState) : Option Nat × MState :=
  match s.ready_queue with
  | [] => (process_find s "idle", s)
  | h :: _ =>
    match selectFrom s (cursorOf s h) with
    | some c => (some c, { s with last := some c })
    | none => (process_find s "idle", { s with last := some (cursorOf s h) })

/-- `u32` decrement (`process_count--` wraps at zero). -/
def u32dec (c : Nat) : Nat := (c + (U32 - 1)) % U32

/-- One iteration of the `process_reap_zombies` loop body for the node
`i` (`curr`): free stack and heap regions if non-null, clear the table
slot, free the PCB itself, `process_count--`.  A dangling `curr` would
be undefined behaviour; the model makes it a no-op. -/
def reapOne (s : MState) (i : Nat) : MState :=
  match plook s.procs i with
  | none => s
  | some r =>
    let s1 := if r.stack_base ≠ 0 then memFree s r.stack_base else s
    let s2 := if r.heap_base ≠ 0 then memFree s1 r.heap_base else s1
    let s3 := { s2 with process_table := clearFirst s2.process_table i }
    let s4 := memFree s3 i
    { s4 with procs := serase s4.procs i, process_count := u32dec s4.process_count }

/-- `process_reap_zombies` (process.c:212-243): walk the zombie chain
(`next` is read before `curr` is freed, so the walk follows the chain as
it stood at entry), reap each node, then null the queue head. -/
def process_reap_zombies (s : MState) : MState :=
  { s.zombie_queue.foldl reapOne s with zombie_queue := [] }

/-- The state of the C globals at program start (static zero
initialisation) after `process_manager_init`'s explicit resets
(`memset(process_table, 0, ...)`, `process_count = 0`, `next_pid = 1`),
just before it creates the idle process.  `allocFn` is the memory
module's oracle. -/
def initialState (allocFn : Nat → Nat) : MState :=
  { procs := []
    process_table := List.replicate MAX_PROCESSES none
    process_count := 0
    next_pid := 1
    ready_queue := []
    blocked_queue := []
    zombie_queue := []
    current_process := none
    last := none
    cpuRegs := List.replicate 8 0
    allocs := allocFn
    allocPtr := 0
    freedLog := [] }

/-- `process_manager_init` (process.c:18-33): reset the statics and
create the idle process ("idle", priority 0, entry 0); a `none` first
component is the case the C code `panic`s on. -/
def process_manager_init (allocFn : Nat → Nat) : Option Nat × MState :=
  process_create (initialState allocFn) "idle" 0 0

/-- An allocator oracle that always succeeds with distinct non-null
addresses 1, 2, 3, … -/
def seqAlloc : Nat → Nat := fun n => n + 1

/-- A freshly initialised manager under `seqAlloc`: the idle process is
PCB address 1, pid 1, in table slot 0. -/
def initFresh : MState := (process_manager_init seqAlloc).2

/-! ### Concrete scenario states -/

/-- The spec's §8 scenario: fresh manager, then create "A" (priority 1)
and "B" (priority 1).  Under `seqAlloc` the PCB addresses are
idle ↦ 1 (pid 1), A ↦ 4 (pid 2), B ↦ 7 (pid 3), and the ready queue is
`[7, 4, 1]` (head insertion order B, A, idle). -/
def s3state : MState :=
  (process_create (process_create initFresh "A" 1 0).2 "B" 1 0).2

/-- Fresh manager whose idle process has been moved to BLOCKED, leaving
the ready queue empty. -/
def sIdleBlocked : MState :=
  (process_set_state initFresh (some 1) ProcessState.BLOCKED).2

/-- `s3state` after the caller transitions "A" (address 4) to ZOMBIE. -/
def sAZombie : MState :=
  (process_set_state s3state (some 4) ProcessState.ZOMBIE).2

/-- The record stored for "A" in `sAZombie`. -/
def aZomRec : ProcRec :=
  { pid := 2
    name := "A"
    state := ProcessState.ZOMBIE
    priority := 1
    entry_point := 0
    stack_base := 5
    stack_size := 16384
    heap_base := 6
    heap_size := 65536
    registers := [0, 16381, 0, 0, 0, 0, 0, 0, 0, 0, 0, 0, 0, 0, 0, 0] }

/-- An allocator oracle whose third answer (the heap region of the first
creation) is a `NULL` failure. -/
def failHeapAlloc : Nat → Nat := fun n => if n = 2 then 0 else n + 1

/-! ### Basic lemmas about the store and queue operations -/

theorem plook_supd_self (ps : List (Nat × ProcRec)) (i : Nat) (r0 r : ProcRec)
    (h : plook ps i = some r0) : plook (supd ps i r) i = some r := by
  induction ps with
  | nil => simp [plook] at h
  | cons hd tl ih =>
    by_cases hk : hd.1 = i
    · simp [plook, supd, hk]
    · simp only [plook, supd, if_neg hk] at h ⊢
      exact ih h

theorem plook_supd_ne (ps : List (Nat × ProcRec)) (i j : Nat) (r : ProcRec)
    (h : j ≠ i) : plook (supd ps i r) j = plook ps j := by
  induction ps with
  | nil => simp [plook, supd]
  | cons hd tl ih =>
    by_cases hk : hd.1 = i
    · have hij : ¬ (i = j) := fun e => h e.symm
      simp [plook, supd, hk, hij]
    · simp only [plook, supd, if_neg hk]
      by_cases hj : hd.1 = j
      · simp [hj]
      · simp [hj, ih]

theorem remove_queue_ready (s : MState) (i : Nat) (st : ProcessState) :
    (process_remove_from_queue s i st).ready_queue =
      if st = ProcessState.READY then qerase s.ready_queue i else s.ready_queue := by
  cases st <;> simp [process_remove_from_queue]

theorem remove_queue_blocked (s : MState) (i : Nat) (st : ProcessState) :
    (process_remove_from_queue s i st).blocked_queue =
      if st = ProcessState.BLOCKED then qerase s.blocked_queue i else s.blocked_queue := by
  cases st <;> simp [process_remove_from_queue]

theorem remove_queue_zombie (s : MState) (i : Nat) (st : ProcessState) :
    (process_remove_from_queue s i st).zombie_queue =
      if st = ProcessState.ZOMBIE then qerase s.zombie_queue i else s.zombie_queue := by
  cases st <;> simp [process_remove_from_queue]

theorem remove_queue_procs (s : MState) (i : Nat) (st : ProcessState) :
    (process_remove_from_queue s i st).procs = s.procs := by
  cases st <;> simp [process_remove_from_queue]

theorem add_queue_ready (s : MState) (i : Nat) (st : ProcessState) :
    (process_add_to_queue s i st).ready_queue =
      if st = ProcessState.READY then i :: s.ready_queue else s.ready_queue := by
  cases st <;> simp [process_add_to_queue]

theorem add_queue_blocked (s : MState) (i : Nat) (st : ProcessState) :
    (process_add_to_queue s i st).blocked_queue =
      if st = ProcessState.BLOCKED then i :: s.blocked_queue else s.blocked_queue := by
  cases st <;> simp [process_add_to_queue]

theorem add_queue_zombie (s : MState) (i : Nat) (st : ProcessState) :
    (process_add_to_queue s i st).zombie_queue =
      if st = ProcessState.ZOMBIE then i :: s.zombie_queue else s.zombie_queue := by
  cases st <;> simp [process_add_to_queue]

theorem add_queue_procs (s : MState) (i : Nat) (st : ProcessState) :
    (process_add_to_queue s i st).procs = s.procs := by
  cases st <;> simp [process_add_to_queue]

/-! ### Claim C9 -/

/-- Claim C9 (confirmed): `process_switch` with a null destination is a
complete no-op — no register context is saved, no state field changes,
and `current_process` is unchanged (the entire kernel state is equal). -/
theorem c9_switch_null_dst (s : MState) (fr : Option Nat) :
    process_switch s fr none = s := rfl

/-! ### Claim C4 -/

/-- Claim C4 (confirmed): if the stack allocation succeeds but the heap
allocation fails during `process_create`, the call returns the error
(`none`), the stack region and then the PCB are released, and the
process table, the live-record store, the live process count and all
three queues are unchanged. -/
theorem c4_rollback (s : MState) (name : String) (priority entry_point : Nat)
    (hcap : s.process_count < MAX_PROCESSES)
    (h1 : s.allocs s.allocPtr ≠ 0)
    (h2 : s.allocs (s.allocPtr + 1) ≠ 0)
    (h3 : s.allocs (s.allocPtr + 2) = 0) :
    (process_create s name priority entry_point).1 = none ∧
    (process_create s name priority entry_point).2.freedLog =
      s.freedLog ++ [s.allocs (s.allocPtr + 1), s.allocs s.allocPtr] ∧
    (process_create s name priority entry_point).2.procs = s.procs ∧
    (process_create s name priority entry_point).2.process_table = s.process_table ∧
    (process_create s name priority entry_point).2.process_count = s.process_count ∧
    (process_create s name priority entry_point).2.ready_queue = s.ready_queue ∧
    (process_create s name priority entry_point).2.blocked_queue = s.blocked_queue ∧
    (process_create s name priority entry_point).2.zombie_queue = s.zombie_queue := by
  have hlt : ¬ MAX_PROCESSES ≤ s.process_count := Nat.not_le.mpr hcap
  simp [process_create, memAlloc, memFree, hlt, h1, h2, h3]

/-- Witness for C4 at a concrete input: a fresh manager state whose
allocator fails on the third request. -/
theorem c4_rollback_witness :
    ((initialState failHeapAlloc).process_count < MAX_PROCESSES ∧
     (initialState failHeapAlloc).allocs (initialState failHeapAlloc).allocPtr ≠ 0 ∧
     (initialState failHeapAlloc).allocs ((initialState failHeapAlloc).allocPtr + 1) ≠ 0 ∧
     (initialState failHeapAlloc).allocs ((initialState failHeapAlloc).allocPtr + 2) = 0) ∧
    ((process_create (initialState failHeapAlloc) "P" 1 0).1 = none ∧
     (process_create (initialState failHeapAlloc) "P" 1 0).2.freedLog =
       (initialState failHeapAlloc).freedLog ++
         [(initialState failHeapAlloc).allocs ((initialState failHeapAlloc).allocPtr + 1),
          (initialState failHeapAlloc).allocs (initialState failHeapAlloc).allocPtr] ∧
     (process_create (initialState failHeapAlloc) "P" 1 0).2.procs =
       (initialState failHeapAlloc).procs ∧
     (process_create (initialState failHeapAlloc) "P" 1 0).2.process_table =
       (initialState failHeapAlloc).process_table ∧
     (process_create (initialState failHeapAlloc) "P" 1 0).2.process_count =
       (initialState failHeapAlloc).process_count ∧
     (process_create (initialState failHeapAlloc) "P" 1 0).2.ready_queue =
       (initialState failHeapAlloc).ready_queue ∧
     (process_create (initialState failHeapAlloc) "P" 1 0).2.blocked_queue =
       (initialState failHeapAlloc).blocked_queue ∧
     (process_create (initialState failHeapAlloc) "P" 1 0).2.zombie_queue =
       (initialState failHeapAlloc).zombie_queue) :=
  ⟨⟨by decide, by decide, by decide, by decide⟩,
   c4_rollback (initialState failHeapAlloc) "P" 1 0
     (by decide) (by decide) (by decide) (by decide)⟩

/-! ### Claim C10 -/

/-- Claim C10 (confirmed): `process_set_state` fails (with
`ERR_INVALID_ARG` and a completely unchanged state) exactly when the
record argument is null; for every live record and every target state —
including transitions the state machine does not sanction, such as
ZOMBIE → READY or anything → SUSPENDED — it succeeds, writes the state
field, unlinks the record from its old state's queue and inserts it at
the head of the new state's queue, with no old-state/new-state
validation. -/
theorem c10_set_state_no_validation (s : MState) (st : ProcessState) :
    process_set_state s none st = (ErrorCode.ERR_INVALID_ARG, s) ∧
    ∀ i r, plook s.procs i = some r →
      (process_set_state s (some i) st).1 = ErrorCode.ERR_SUCCESS ∧
      plook (process_set_state s (some i) st).2.procs i = some { r with state := st } ∧
      (process_set_state s (some i) st).2.ready_queue =
        (if st = ProcessState.READY then
           i :: (if r.state = ProcessState.READY then qerase s.ready_queue i
                 else s.ready_queue)
         else if r.state = ProcessState.READY then qerase s.ready_queue i
              else s.ready_queue) ∧
      (process_set_state s (some i) st).2.blocked_queue =
        (if st = ProcessState.BLOCKED then
           i :: (if r.state = ProcessState.BLOCKED then qerase s.blocked_queue i
                 else s.blocked_queue)
         else if r.state = ProcessState.BLOCKED then qerase s.blocked_queue i
              else s.blocked_queue) ∧
      (process_set_state s (some i) st).2.zombie_queue =
        (if st = ProcessState.ZOMBIE then
           i :: (if r.state = ProcessState.ZOMBIE then qerase s.zombie_queue i
                 else s.zombie_queue)
         else if r.state = ProcessState.ZOMBIE then qerase s.zombie_queue i
              else s.zombie_queue) := by
  refine ⟨rfl, fun i r h => ?_⟩
  refine ⟨by simp [process_set_state, h], ?_, ?_, ?_, ?_⟩
  · simp only [process_set_state, h]
    rw [add_queue_procs, remove_queue_procs]
    exact plook_supd_self s.procs i r _ h
  · simp only [process_set_state, h]
    rw [add_queue_ready, remove_queue_ready]
  · simp only [process_set_state, h]
    rw [add_queue_blocked, remove_queue_blocked]
  · simp only [process_set_state, h]
    rw [add_queue_zombie, remove_queue_zombie]

/-- Witness for C10 at the unsanctioned transition ZOMBIE → READY on the
live record "A" of `sAZombie`. -/
theorem c10_set_state_no_validation_witness :
    plook sAZombie.procs 4 = some aZomRec ∧
    ((process_set_state sAZombie (some 4) ProcessState.READY).1 = ErrorCode.ERR_SUCCESS ∧
     plook (process_set_state sAZombie (some 4) ProcessState.READY).2.procs 4 =
       some { aZomRec with state := ProcessState.READY } ∧
     (process_set_state sAZombie (some 4) ProcessState.READY).2.ready_queue =
       (if ProcessState.READY = ProcessState.READY then
          4 :: (if aZomRec.state = ProcessState.READY then qerase sAZombie.ready_queue 4
                else sAZombie.ready_queue)
        else if aZomRec.state = ProcessState.READY then qerase sAZombie.ready_queue 4
             else sAZombie.ready_queue) ∧
     (process_set_state sAZombie (some 4) ProcessState.READY).2.blocked_queue =
       (if ProcessState.READY = ProcessState.BLOCKED then
          4 :: (if aZomRec.state = ProcessState.BLOCKED then qerase sAZombie.blocked_queue 4
                else sAZombie.blocked_queue)
        else if aZomRec.state = ProcessState.BLOCKED then qerase sAZombie.blocked_queue 4
             else sAZombie.blocked_queue) ∧
     (process_set_state sAZombie (some 4) ProcessState.READY).2.zombie_queue =
       (if ProcessState.READY = ProcessState.ZOMBIE then
          4 :: (if aZomRec.state = ProcessState.ZOMBIE then qerase sAZombie.zombie_queue 4
                else sAZombie.zombie_queue)
        else if aZomRec.state = ProcessState.ZOMBIE then qerase sAZombie.zombie_queue 4
             else sAZombie.zombie_queue)) :=
  ⟨by decide,
   (c10_set_state_no_validation sAZombie ProcessState.READY).2 4 aZomRec (by decide)⟩

/-! ### Claim C8 -/

/-- Claim C8 (confirmed): whenever the ready queue is empty,
`scheduler_select_next` returns `process_find "idle"` — the idle record
created at manager initialisation — and leaves the state untouched;
moreover `scheduler_select_next` never removes anything (idle included)
from any queue, nor does it modify any record. -/
theorem c8_idle_fallback (s : MState) :
    (s.ready_queue = [] → scheduler_select_next s = (process_find s "idle", s)) ∧
    (scheduler_select_next s).2.ready_queue = s.ready_queue ∧
    (scheduler_select_next s).2.blocked_queue = s.blocked_queue ∧
    (scheduler_select_next s).2.zombie_queue = s.zombie_queue ∧
    (scheduler_select_next s).2.procs = s.procs := by
  constructor
  · intro h
    simp [scheduler_select_next, h]
  · unfold scheduler_select_next
    split
    · exact ⟨rfl, rfl, rfl, rfl⟩
    · split <;> exact ⟨rfl, rfl, rfl, rfl⟩

/-- Witness for C8: the fresh manager with idle moved to BLOCKED has an
empty ready queue, and `select_next` returns the idle record (address 1,
the record created by `process_manager_init`). -/
theorem c8_idle_fallback_witness :
    sIdleBlocked.ready_queue = [] ∧
    scheduler_select_next sIdleBlocked = (process_find sIdleBlocked "idle", sIdleBlocked) ∧
    process_find sIdleBlocked "idle" = some 1 ∧
    (plook sIdleBlocked.procs 1).map (fun r => r.pid) = some 1 :=
  ⟨by decide, (c8_idle_fallback sIdleBlocked).1 (by decide), by decide, by decide⟩

/-! ### Claim C2 -/

/-- Counterexample to C2 as stated: in `sAZombie` the caller has already
transitioned "A" (address 4) to ZOMBIE, yet `process_switch` with
`from = A` changes A's state to READY. -/
theorem c2_counterexample :
    (plook sAZombie.procs 4).map (fun r => r.state) = some ProcessState.ZOMBIE ∧
    (plook (process_switch sAZombie (some 4) (some 1)).procs 4).map (fun r => r.state) =
      some ProcessState.READY := by
  exact ⟨by decide, by decide⟩

theorem setStateField_plook_ne (s : MState) (i : Nat) (st : ProcessState) (j : Nat)
    (h : j ≠ i) : plook (setStateField s i st).procs j = plook s.procs j := by
  unfold setStateField
  cases hp : plook s.procs i with
  | none => rfl
  | some r => exact plook_supd_ne s.procs i j _ h

theorem setStateField_plook_self (s : MState) (i : Nat) (st : ProcessState) (r : ProcRec)
    (h : plook s.procs i = some r) :
    plook (setStateField s i st).procs i = some { r with state := st } := by
  unfold setStateField
  rw [h]
  exact plook_supd_self s.procs i r _ h

theorem save_context_plook_self (s : MState) (i : Nat) (r : ProcRec)
    (h : plook s.procs i = some r) :
    plook (process_save_context s i).procs i =
      some { r with registers := s.cpuRegs ++ r.registers.drop 8 } := by
  unfold process_save_context
  rw [h]
  exact plook_supd_self s.procs i r _ h

theorem restore_context_procs (s : MState) (i : Nat) :
    (process_restore_context s i).procs = s.procs := by
  unfold process_restore_context
  split <;> rfl

/-- Claim C2 (corrected): `process_switch` writes `from->state =
PROC_STATE_READY` unconditionally.  When `from` is live (and distinct
from the destination), its state after the switch is READY even if the
caller had already transitioned it to BLOCKED or ZOMBIE: the engine
*does* overwrite the caller's state. -/
theorem c2_amended_switch_overwrites (s : MState) (f t : Nat) (r : ProcRec)
    (hf : plook s.procs f = some r) (hne : f ≠ t) :
    (plook (process_switch s (some f) (some t)).procs f).map (fun x => x.state) =
      some ProcessState.READY := by
  unfold process_switch
  have h1 := setStateField_plook_self (process_save_context s f) f ProcessState.READY _
    (save_context_plook_self s f r hf)
  show (plook (process_restore_context (setStateField (setStateField
      (process_save_context s f) f ProcessState.READY) t ProcessState.RUNNING) t).procs f).map
      (fun x => x.state) = some ProcessState.READY
  rw [restore_context_procs, setStateField_plook_ne _ _ _ _ hne, h1]
  rfl

/-- Witness for the amended C2 at a concrete input: "A" is ZOMBIE in
`sAZombie`, and after `process_switch(A, idle)` its state is READY. -/
theorem c2_amended_switch_overwrites_witness :
    plook sAZombie.procs 4 = some aZomRec ∧ 4 ≠ 1 ∧
    (plook (process_switch sAZombie (some 4) (some 1)).procs 4).map (fun x => x.state) =
      some ProcessState.READY :=
  ⟨by decide, by decide,
   c2_amended_switch_overwrites sAZombie 4 1 aZomRec (by decide) (by decide)⟩

/-! ### Claim C3 -/

/-- The result of the n-th call (0-indexed) in a sequence of repeated
`scheduler_select_next` invocations starting from `s`. -/
def nthSelect : MState → Nat → Option Nat
  | s, 0 => (scheduler_select_next s).1
  | s, n + 1 => nthSelect (scheduler_select_next s).2 n

/-- Counterexample to C3 as stated: in the idle/A/B scenario the second
`select_next` call returns the idle process (address 1, name "idle",
pid 1), not "B" — the sequence is A, idle, B, …, because `create` placed
idle in the ready queue. -/
theorem c3_counterexample :
    nthSelect s3state 1 = some 1 ∧
    (plook s3state.procs 1).map (fun r => r.name) = some "idle" ∧
    (plook s3state.procs 7).map (fun r => r.name) = some "B" := by
  exact ⟨by decide, by decide, by decide⟩

/-- The scenario state after three `select_next` calls: only the
scheduler cursor has moved (to "B", address 7). -/
def s3after : MState := { s3state with last := some 7 }

theorem s3_step3 :
    (scheduler_select_next (scheduler_select_next
      (scheduler_select_next s3state).2).2).2 = s3after := by rfl

theorem s3after_step3 :
    (scheduler_select_next (scheduler_select_next
      (scheduler_select_next s3after).2).2).2 = s3after := by rfl

theorem nthSelect_shift (s : MState) (m : Nat) :
    nthSelect s (m + 3) =
      nthSelect (scheduler_select_next (scheduler_select_next
        (scheduler_select_next s).2).2).2 m := rfl

theorem s3after_pattern : ∀ k,
    nthSelect s3after (3 * k) = some 4 ∧
    nthSelect s3after (3 * k + 1) = some 1 ∧
    nthSelect s3after (3 * k + 2) = some 7 := by
  intro k
  induction k with
  | zero => exact ⟨by decide, by decide, by decide⟩
  | succ k ih =>
    have h3 : 3 * (k + 1) = 3 * k + 3 := by ring
    have e0 : nthSelect s3after (3 * (k + 1)) = nthSelect s3after (3 * k) := by
      rw [h3, nthSelect_shift, s3after_step3]
    have e1 : nthSelect s3after (3 * (k + 1) + 1) = nthSelect s3after (3 * k + 1) := by
      rw [h3, show 3 * k + 3 + 1 = (3 * k + 1) + 3 by ring, nthSelect_shift, s3after_step3]
    have e2 : nthSelect s3after (3 * (k + 1) + 2) = nthSelect s3after (3 * k + 2) := by
      rw [h3, show 3 * k + 3 + 2 = (3 * k + 2) + 3 by ring, nthSelect_shift, s3after_step3]
    exact ⟨e0.trans ih.1, e1.trans ih.2.1, e2.trans ih.2.2⟩

/-- Claim C3 (corrected): starting from the fresh idle/A/B scenario the
repeated `select_next` sequence is A, idle, B, A, idle, B, … — the idle
process participates in the rotation (creation placed it in the ready
queue with state READY), instead of the claimed A, B, A, B, … with idle
excluded. -/
theorem c3_amended_rotation :
    (plook s3state.procs 4).map (fun r => r.name) = some "A" ∧
    (plook s3state.procs 1).map (fun r => r.name) = some "idle" ∧
    (plook s3state.procs 7).map (fun r => r.name) = some "B" ∧
    ∀ k, nthSelect s3state (3 * k) = some 4 ∧
         nthSelect s3state (3 * k + 1) = some 1 ∧
         nthSelect s3state (3 * k + 2) = some 7 := by
  refine ⟨by decide, by decide, by decide, ?_⟩
  intro k
  cases k with
  | zero => exact ⟨by decide, by decide, by decide⟩
  | succ k =>
    have h3 : 3 * (k + 1) = 3 * k + 3 := by ring
    have e0 : nthSelect s3state (3 * (k + 1)) = nthSelect s3after (3 * k) := by
      rw [h3, nthSelect_shift, s3_step3]
    have e1 : nthSelect s3state (3 * (k + 1) + 1) = nthSelect s3after (3 * k + 1) := by
      rw [h3, show 3 * k + 3 + 1 = (3 * k + 1) + 3 by ring, nthSelect_shift, s3_step3]
    have e2 : nthSelect s3state (3 * (k + 1) + 2) = nthSelect s3after (3 * k + 2) := by
      rw [h3, show 3 * k + 3 + 2 = (3 * k + 2) + 3 by ring, nthSelect_shift, s3_step3]
    exact ⟨e0.trans (s3after_pattern k).1, e1.trans (s3after_pattern k).2.1,
           e2.trans (s3after_pattern k).2.2⟩

/-! ### Reaper lemmas (for C7 and the C1 invariant) -/

/-- The addresses `process_reap_zombies` releases for the node `i`:
stack region, heap region, then the PCB itself. -/
def regionAddrs (ps : List (Nat × ProcRec)) (i : Nat) : List Nat :=
  match plook ps i with
  | some r => [r.stack_base, r.heap_base, i]
  | none => []

/-- Decidable form of "the zombie node `i` is live with non-null stack
and heap regions". -/
def zombieOkB (ps : List (Nat × ProcRec)) (i : Nat) : Bool :=
  match plook ps i with
  | some r => decide (r.stack_base ≠ 0) && decide (r.heap_base ≠ 0)
  | none => false

theorem plook_eq_none_of_not_mem (ps : List (Nat × ProcRec)) (i : Nat)
    (h : i ∉ ps.map (fun p => p.1)) : plook ps i = none := by
  induction ps with
  | nil => rfl
  | cons hd tl ih =>
    simp only [List.map_cons, List.mem_cons, not_or] at h
    have hne : ¬ (hd.1 = i) := fun e => h.1 e.symm
    simp only [plook, if_neg hne]
    exact ih h.2

theorem plook_mem (ps : List (Nat × ProcRec)) (i : Nat) (r : ProcRec)
    (h : plook ps i = some r) : (i, r) ∈ ps := by
  induction ps with
  | nil => simp [plook] at h
  | cons hd tl ih =>
    by_cases hk : hd.1 = i
    · simp only [plook, if_pos hk] at h
      obtain rfl : hd.2 = r := by injection h
      subst hk
      exact List.mem_cons_self hd tl
    · simp only [plook, if_neg hk] at h
      exact List.mem_cons_of_mem hd (ih h)

theorem serase_absent (ps : List (Nat × ProcRec)) (i : Nat)
    (h : plook ps i = none) : serase ps i = ps := by
  induction ps with
  | nil => rfl
  | cons hd tl ih =>
    by_cases hk : hd.1 = i
    · simp [plook, hk] at h
    · simp only [plook, if_neg hk] at h
      simp [serase, hk, ih h]

theorem serase_keys_sublist (ps : List (Nat × ProcRec)) (i : Nat) :
    ((serase ps i).map (fun p => p.1)).Sublist (ps.map (fun p => p.1)) := by
  induction ps with
  | nil => simp [serase]
  | cons hd tl ih =>
    by_cases hk : hd.1 = i
    · simp only [serase, if_pos hk, List.map_cons]
      exact (List.sublist_cons_self _ _)
    · simp only [serase, if_neg hk, List.map_cons]
      exact ih.cons₂ hd.1

theorem plook_serase_self (ps : List (Nat × ProcRec)) (i : Nat)
    (h : (ps.map (fun p => p.1)).Nodup) : plook (serase ps i) i = none := by
  induction ps with
  | nil => rfl
  | cons hd tl ih =>
    simp only [List.map_cons, List.nodup_cons] at h
    by_cases hk : hd.1 = i
    · simp only [serase, if_pos hk]
      exact plook_eq_none_of_not_mem tl i (hk ▸ h.1)
    · simp only [serase, if_neg hk, plook, if_neg hk]
      exact ih h.2

theorem plook_serase_ne (ps : List (Nat × ProcRec)) (i j : Nat)
    (h : j ≠ i) : plook (serase ps i) j = plook ps j := by
  induction ps with
  | nil => rfl
  | cons hd tl ih =>
    have hij : ¬ (i = j) := fun e => h e.symm
    by_cases hk : hd.1 = i
    · have hdj : ¬ (hd.1 = j) := fun e => hij (hk.symm.trans e)
      simp [serase, plook, hk, hdj, hij]
    · by_cases hj : hd.1 = j
      · simp [serase, plook, hk, hj, fun e : j = i => h e]
      · simp [serase, plook, hk, hj, ih]

theorem plook_foldl_serase (l : List Nat) (ps : List (Nat × ProcRec)) (j : Nat)
    (h : (ps.map (fun p => p.1)).Nodup) :
    plook (l.foldl serase ps) j = if j ∈ l then none else plook ps j := by
  induction l generalizing ps with
  | nil => simp
  | cons i l ih =>
    have hnd : (((serase ps i).map (fun p => p.1)).Nodup) :=
      (serase_keys_sublist ps i).nodup h
    rw [List.foldl_cons, ih _ hnd]
    by_cases hl : j ∈ l
    · simp [hl]
    · by_cases hji : j = i
      · simp [hl, hji, plook_serase_self ps i h]
      · simp [hl, hji, plook_serase_ne ps i j hji]

/-- Full unconditional characterisation of `reapOne` on the fields it
either leaves alone or rewrites independently of liveness. -/
theorem reapOne_fields (s : MState) (i : Nat) :
    (reapOne s i).ready_queue = s.ready_queue ∧
    (reapOne s i).blocked_queue = s.blocked_queue ∧
    (reapOne s i).zombie_queue = s.zombie_queue ∧
    (reapOne s i).procs = serase s.procs i ∧
    (reapOne s i).last = s.last ∧
    (reapOne s i).current_process = s.current_process ∧
    (reapOne s i).next_pid = s.next_pid ∧
    (reapOne s i).allocs = s.allocs ∧
    (reapOne s i).allocPtr = s.allocPtr := by
  unfold reapOne
  cases hp : plook s.procs i with
  | none => simp [serase_absent s.procs i hp]
  | some r =>
    by_cases h1 : r.stack_base ≠ 0 <;> by_cases h2 : r.heap_base ≠ 0 <;>
      simp [memFree, h1, h2]

/-- On a live node with non-null regions, `reapOne` frees stack, heap and
PCB (in that order) and clears the node's table slot. -/
theorem reapOne_freed_table (s : MState) (i : Nat) (r : ProcRec)
    (h : plook s.procs i = some r) (h1 : r.stack_base ≠ 0) (h2 : r.heap_base ≠ 0) :
    (reapOne s i).freedLog = s.freedLog ++ [r.stack_base, r.heap_base, i] ∧
    (reapOne s i).process_table = clearFirst s.process_table i := by
  unfold reapOne
  rw [h]
  simp [memFree, h1, h2]

theorem foldl_reapOne_ready (l : List Nat) (s : MState) :
    (l.foldl reapOne s).ready_queue = s.ready_queue := by
  induction l generalizing s with
  | nil => rfl
  | cons i l ih => rw [List.foldl_cons, ih, (reapOne_fields s i).1]

theorem foldl_reapOne_blocked (l : List Nat) (s : MState) :
    (l.foldl reapOne s).blocked_queue = s.blocked_queue := by
  induction l generalizing s with
  | nil => rfl
  | cons i l ih => rw [List.foldl_cons, ih, (reapOne_fields s i).2.1]

theorem foldl_reapOne_zombie (l : List Nat) (s : MState) :
    (l.foldl reapOne s).zombie_queue = s.zombie_queue := by
  induction l generalizing s with
  | nil => rfl
  | cons i l ih => rw [List.foldl_cons, ih, (reapOne_fields s i).2.2.1]

theorem foldl_reapOne_procs (l : List Nat) (s : MState) :
    (l.foldl reapOne s).procs = l.foldl serase s.procs := by
  induction l generalizing s with
  | nil => rfl
  | cons i l ih => rw [List.foldl_cons, ih, List.foldl_cons, (reapOne_fields s i).2.2.2.1]

theorem flatMap_congr_of_mem {α β : Type} (l : List α) (f g : α → List β)
    (h : ∀ x ∈ l, f x = g x) : l.flatMap f = l.flatMap g := by
  induction l with
  | nil => rfl
  | cons x l ih =>
    simp only [List.flatMap_cons]
    rw [h x (List.mem_cons_self x l), ih fun y hy => h y (List.mem_cons_of_mem x hy)]

theorem foldl_reapOne_freedLog (l : List Nat) (s : MState)
    (hok : ∀ i ∈ l, zombieOkB s.procs i = true)
    (hnd : l.Nodup)
    (hkeys : (s.procs.map (fun p => p.1)).Nodup) :
    (l.foldl reapOne s).freedLog = s.freedLog ++ l.flatMap (regionAddrs s.procs) := by
  induction l generalizing s with
  | nil => simp
  | cons i l ih =>
    have hoki := hok i (List.mem_cons_self i l)
    unfold zombieOkB at hoki
    cases hp : plook s.procs i with
    | none => rw [hp] at hoki; simp at hoki
    | some r =>
      rw [hp] at hoki
      simp only [Bool.and_eq_true, decide_eq_true_eq] at hoki
      have hfields := reapOne_fields s i
      have hfree := reapOne_freed_table s i r hp hoki.1 hoki.2
      have hprocs : (reapOne s i).procs = serase s.procs i := hfields.2.2.2.1
      have hkeys2 : (((reapOne s i).procs).map (fun p => p.1)).Nodup := by
        rw [hprocs]; exact (serase_keys_sublist s.procs i).nodup hkeys
      have hplookl : ∀ j ∈ l, plook (reapOne s i).procs j = plook s.procs j := by
        intro j hj
        rw [hprocs]
        exact plook_serase_ne s.procs i j (fun e => (List.nodup_cons.mp hnd).1 (e ▸ hj))
      have hok2 : ∀ j ∈ l, zombieOkB (reapOne s i).procs j = true := by
        intro j hj
        unfold zombieOkB
        rw [hplookl j hj]
        have := hok j (List.mem_cons_of_mem i hj)
        unfold zombieOkB at this
        exact this
      rw [List.foldl_cons, ih _ hok2 (List.nodup_cons.mp hnd).2 hkeys2, hfree.1]
      have hra : l.flatMap (regionAddrs (reapOne s i).procs) = l.flatMap (regionAddrs s.procs) := by
        apply flatMap_congr_of_mem
        intro j hj
        unfold regionAddrs
        rw [hplookl j hj]
      rw [hra, List.flatMap_cons]
      unfold regionAddrs
      rw [hp]
      simp

theorem foldl_reapOne_table (l : List Nat) (s : MState)
    (hok : ∀ i ∈ l, zombieOkB s.procs i = true)
    (hnd : l.Nodup) :
    (l.foldl reapOne s).process_table = l.foldl clearFirst s.process_table := by
  induction l generalizing s with
  | nil => rfl
  | cons i l ih =>
    have hoki := hok i (List.mem_cons_self i l)
    unfold zombieOkB at hoki
    cases hp : plook s.procs i with
    | none => rw [hp] at hoki; simp at hoki
    | some r =>
      rw [hp] at hoki
      simp only [Bool.and_eq_true, decide_eq_true_eq] at hoki
      have hfields := reapOne_fields s i
      have hfree := reapOne_freed_table s i r hp hoki.1 hoki.2
      have hplookl : ∀ j ∈ l, plook (reapOne s i).procs j = plook s.procs j := by
        intro j hj
        rw [hfields.2.2.2.1]
        exact plook_serase_ne s.procs i j (fun e => (List.nodup_cons.mp hnd).1 (e ▸ hj))
      have hok2 : ∀ j ∈ l, zombieOkB (reapOne s i).procs j = true := by
        intro j hj
        unfold zombieOkB
        rw [hplookl j hj]
        have := hok j (List.mem_cons_of_mem i hj)
        unfold zombieOkB at this
        exact this
      rw [List.foldl_cons, ih _ hok2 (List.nodup_cons.mp hnd).2, hfree.2, List.foldl_cons]

theorem clearFirst_filterMap_sublist (table : List (Option Nat)) (i : Nat) :
    ((clearFirst table i).filterMap id).Sublist (table.filterMap id) := by
  induction table with
  | nil => simp [clearFirst]
  | cons o rest ih =>
    by_cases ho : o = some i
    · simp only [clearFirst, if_pos ho, ho, List.filterMap_cons]
      simp only [id]
      exact List.sublist_cons_self i _
    · simp only [clearFirst, if_neg ho]
      cases o with
      | none => simpa using ih
      | some j =>
        simp only [List.filterMap_cons, id]
        exact ih.cons₂ j

theorem some_mem_clearFirst (table : List (Option Nat)) (i j : Nat)
    (htab : (table.filterMap id).Nodup) :
    some j ∈ clearFirst table i ↔ some j ∈ table ∧ j ≠ i := by
  induction table with
  | nil => simp [clearFirst]
  | cons o rest ih =>
    by_cases ho : o = some i
    · subst ho
      rw [show List.filterMap id (some i :: rest) = i :: List.filterMap id rest from rfl,
        List.nodup_cons] at htab
      have hnot : some i ∉ rest := by
        intro hmem
        exact htab.1 (List.mem_filterMap.mpr ⟨some i, hmem, rfl⟩)
      show some j ∈ (if (some i : Option Nat) = some i then none :: rest
        else some i :: clearFirst rest i) ↔ _
      rw [if_pos rfl]
      simp only [List.mem_cons]
      constructor
      · rintro (h | h)
        · exact absurd h (by simp)
        · exact ⟨Or.inr h, fun e => hnot (e ▸ h)⟩
      · rintro ⟨(h | h), hne⟩
        · exact absurd (Option.some.inj h) hne
        · exact Or.inr h
    · have htab2 : (rest.filterMap id).Nodup := by
        cases o with
        | none => simpa using htab
        | some k =>
          rw [show List.filterMap id (some k :: rest) = k :: List.filterMap id rest from rfl,
            List.nodup_cons] at htab
          exact htab.2
      show some j ∈ (if o = some i then none :: rest else o :: clearFirst rest i) ↔ _
      rw [if_neg ho]
      simp only [List.mem_cons]
      rw [ih htab2]
      constructor
      · rintro (h | ⟨h, hne⟩)
        · exact ⟨Or.inl h, fun e => ho (e ▸ h.symm)⟩
        · exact ⟨Or.inr h, hne⟩
      · rintro ⟨(h | h), hne⟩
        · exact Or.inl h
        · exact Or.inr ⟨h, hne⟩

theorem some_mem_foldl_clearFirst (l : List Nat) (table : List (Option Nat)) (j : Nat)
    (htab : (table.filterMap id).Nodup) :
    some j ∈ l.foldl clearFirst table ↔ some j ∈ table ∧ j ∉ l := by
  induction l generalizing table with
  | nil => simp
  | cons i l ih =>
    rw [List.foldl_cons, ih _ ((clearFirst_filterMap_sublist table i).nodup htab),
      some_mem_clearFirst table i j htab]
    constructor
    · rintro ⟨⟨h, hne⟩, hnl⟩
      exact ⟨h, by simp [hne, hnl]⟩
    · rintro ⟨h, hn⟩
      simp only [List.mem_cons, not_or] at hn
      exact ⟨⟨h, hn.1⟩, hn.2⟩

theorem findPid_eq_none (procs : List (Nat × ProcRec)) (table : List (Option Nat)) (p : Nat)
    (h : ∀ j, some j ∈ table → ∀ r, plook procs j = some r → r.pid ≠ p) :
    process_find_by_pid.findPid procs table p = none := by
  induction table with
  | nil => rfl
  | cons o rest ih =>
    cases o with
    | none =>
      show process_find_by_pid.findPid procs rest p = none
      exact ih fun j hj => h j (List.mem_cons_of_mem none hj)
    | some i =>
      show (match plook procs i with
            | some r => if r.pid = p then some i else process_find_by_pid.findPid procs rest p
            | none => process_find_by_pid.findPid procs rest p) = none
      cases hp : plook procs i with
      | none => exact ih fun j hj => h j (List.mem_cons_of_mem (some i) hj)
      | some r =>
        show (if r.pid = p then some i else process_find_by_pid.findPid procs rest p) = none
        rw [if_neg (h i (List.mem_cons_self _ _) r hp)]
        exact ih fun j hj => h j (List.mem_cons_of_mem (some i) hj)

/-! ### Claim C7 -/

/-- Claim C7 (confirmed): after `process_reap_zombies`, each record that
was in the zombie queue has had its stack region and its heap region
released exactly once (the freed-address log grows by exactly the
zombies' stack/heap/PCB addresses, and each such address appears once in
that extension), the zombie queue is empty, the record is no longer
live, and `process_find_by_pid` no longer returns its pid; with an empty
zombie queue the call is a complete no-op. -/
theorem c7_reap_zombies (s : MState)
    (hok : ∀ i ∈ s.zombie_queue, zombieOkB s.procs i = true)
    (hnd : s.zombie_queue.Nodup)
    (hkeys : (s.procs.map (fun p => p.1)).Nodup)
    (htab : (s.process_table.filterMap id).Nodup)
    (haddr : (s.zombie_queue.flatMap (regionAddrs s.procs)).Nodup)
    (hpid : ∀ a ∈ s.procs, ∀ b ∈ s.procs, a.2.pid = b.2.pid → a.1 = b.1) :
    (process_reap_zombies s).zombie_queue = [] ∧
    (process_reap_zombies s).freedLog =
      s.freedLog ++ s.zombie_queue.flatMap (regionAddrs s.procs) ∧
    (∀ i ∈ s.zombie_queue, ∀ r, plook s.procs i = some r →
      (s.zombie_queue.flatMap (regionAddrs s.procs)).count r.stack_base = 1 ∧
      (s.zombie_queue.flatMap (regionAddrs s.procs)).count r.heap_base = 1 ∧
      plook (process_reap_zombies s).procs i = none ∧
      process_find_by_pid (process_reap_zombies s) r.pid = none) ∧
    (s.zombie_queue = [] → process_reap_zombies s = s) := by
  refine ⟨rfl, ?_, ?_, ?_⟩
  · show (s.zombie_queue.foldl reapOne s).freedLog = _
    exact foldl_reapOne_freedLog s.zombie_queue s hok hnd hkeys
  · intro i hi r hr
    have hmemaddr : ∀ a ∈ regionAddrs s.procs i,
        (s.zombie_queue.flatMap (regionAddrs s.procs)).count a = 1 := by
      intro a ha
      exact List.count_eq_one_of_mem haddr (List.mem_flatMap.mpr ⟨i, hi, ha⟩)
    have hreg : regionAddrs s.procs i = [r.stack_base, r.heap_base, i] := by
      unfold regionAddrs; rw [hr]
    refine ⟨hmemaddr r.stack_base (by rw [hreg]; simp),
            hmemaddr r.heap_base (by rw [hreg]; simp), ?_, ?_⟩
    · show plook (s.zombie_queue.foldl reapOne s).procs i = none
      rw [foldl_reapOne_procs, plook_foldl_serase _ _ _ hkeys, if_pos hi]
    · unfold process_find_by_pid
      apply findPid_eq_none
      intro j hj rj hrj
      have htab2 : (process_reap_zombies s).process_table =
          s.zombie_queue.foldl clearFirst s.process_table := by
        show (s.zombie_queue.foldl reapOne s).process_table = _
        exact foldl_reapOne_table s.zombie_queue s hok hnd
      rw [htab2] at hj
      have hj2 := (some_mem_foldl_clearFirst s.zombie_queue s.process_table j htab).mp hj
      have hpl : plook (process_reap_zombies s).procs j = plook s.procs j := by
        show plook (s.zombie_queue.foldl reapOne s).procs j = _
        rw [foldl_reapOne_procs, plook_foldl_serase _ _ _ hkeys, if_neg hj2.2]
      rw [hpl] at hrj
      intro hpe
      have hji : j = i :=
        hpid (j, rj) (plook_mem _ _ _ hrj) (i, r) (plook_mem _ _ _ hr) hpe
      exact hj2.2 (hji ▸ hi)
  · intro h
    show { s.zombie_queue.foldl reapOne s with zombie_queue := [] } = s
    rw [h]
    show { s with zombie_queue := ([] : List Nat) } = s
    rw [← h]

/-- Witness for C7: reaping `sAZombie` (one zombie, "A" at address 4)
releases its stack (5), heap (6) and PCB (4) exactly once, empties the
zombie queue, and makes pid 2 unfindable; reaping a state with an empty
zombie queue (`initFresh`) is a no-op. -/
theorem c7_reap_zombies_witness :
    sAZombie.zombie_queue = [4] ∧
    plook sAZombie.procs 4 = some aZomRec ∧
    (process_reap_zombies sAZombie).zombie_queue = [] ∧
    (process_reap_zombies sAZombie).freedLog =
      sAZombie.freedLog ++ sAZombie.zombie_queue.flatMap (regionAddrs sAZombie.procs) ∧
    (sAZombie.zombie_queue.flatMap (regionAddrs sAZombie.procs)).count aZomRec.stack_base = 1 ∧
    (sAZombie.zombie_queue.flatMap (regionAddrs sAZombie.procs)).count aZomRec.heap_base = 1 ∧
    plook (process_reap_zombies sAZombie).procs 4 = none ∧
    process_find_by_pid (process_reap_zombies sAZombie) aZomRec.pid = none ∧
    process_reap_zombies initFresh = initFresh := by
  have h := c7_reap_zombies sAZombie (by decide) (by decide) (by decide) (by decide)
    (by decide) (by decide)
  have h4 := h.2.2.1 4 (by decide) aZomRec (by decide)
  have hempty := (c7_reap_zombies initFresh (by decide) (by decide) (by decide) (by decide)
    (by decide) (by decide)).2.2.2 (by decide)
  exact ⟨by decide, by decide, h.1, h.2.1, h4.1, h4.2.1, h4.2.2.1, h4.2.2.2, hempty⟩

/-! ### The queue-consistency invariant (C1) -/

/-- The spec's §3 state/queue consistency for one live record:
READY ⇔ in ready queue, BLOCKED ⇔ in blocked queue, ZOMBIE ⇔ in zombie
queue (hence any other state ⇔ in no queue). -/
def inQueuesConsistent (s : MState) (i : Nat) (r : ProcRec) : Prop :=
  ((r.state = ProcessState.READY) ↔ i ∈ s.ready_queue) ∧
  ((r.state = ProcessState.BLOCKED) ↔ i ∈ s.blocked_queue) ∧
  ((r.state = ProcessState.ZOMBIE) ↔ i ∈ s.zombie_queue)

/-- The claim's invariant: every live Process Record's queue membership
is consistent with its state field. -/
def QueueInv (s : MState) : Prop :=
  ∀ p ∈ s.procs, inQueuesConsistent s p.1 p.2

instance (s : MState) (i : Nat) (r : ProcRec) : Decidable (inQueuesConsistent s i r) := by
  unfold inQueuesConsistent
  infer_instance

instance (s : MState) : Decidable (QueueInv s) := by
  unfold QueueInv
  exact List.decidableBAll _ _

/-- Well-formedness of the manager state: the pointer structures are
sane (distinct live PCBs, queues of distinct live nodes) and the
queue-consistency invariant holds.  These are the properties of the
intrusive lists that `process.c` relies on. -/
structure WF (s : MState) : Prop where
  keysNodup : (s.procs.map (fun p => p.1)).Nodup
  readyLive : ∀ i ∈ s.ready_queue, (plook s.procs i).isSome
  blockedLive : ∀ i ∈ s.blocked_queue, (plook s.procs i).isSome
  zombieLive : ∀ i ∈ s.zombie_queue, (plook s.procs i).isSome
  readyNodup : s.ready_queue.Nodup
  blockedNodup : s.blocked_queue.Nodup
  zombieNodup : s.zombie_queue.Nodup
  queueInv : QueueInv s

theorem qerase_sublist (q : List Nat) (i : Nat) : (qerase q i).Sublist q := by
  induction q with
  | nil => simp [qerase]
  | cons x xs ih =>
    by_cases hx : x = i
    · simp only [qerase, if_pos hx]
      exact List.sublist_cons_self x xs
    · simp only [qerase, if_neg hx]
      exact ih.cons₂ x

theorem qerase_subset (q : List Nat) (i j : Nat) (h : j ∈ qerase q i) : j ∈ q :=
  (qerase_sublist q i).subset h

theorem qerase_nodup (q : List Nat) (i : Nat) (h : q.Nodup) : (qerase q i).Nodup :=
  (qerase_sublist q i).nodup h

theorem qerase_mem_ne (q : List Nat) (i j : Nat) (h : j ≠ i) :
    j ∈ qerase q i ↔ j ∈ q := by
  induction q with
  | nil => simp [qerase]
  | cons x xs ih =>
    by_cases hx : x = i
    · simp only [qerase, if_pos hx, List.mem_cons]
      constructor
      · exact Or.inr
      · rintro (he | hm)
        · exact absurd (he.trans hx) h
        · exact hm
    · simp only [qerase, if_neg hx, List.mem_cons]
      rw [ih]

theorem qerase_not_mem_self (q : List Nat) (i : Nat) (h : q.Nodup) :
    i ∉ qerase q i := by
  induction q with
  | nil => simp [qerase]
  | cons x xs ih =>
    rcases List.nodup_cons.mp h with ⟨hx, hxs⟩
    by_cases he : x = i
    · simp only [qerase, if_pos he]
      exact he ▸ hx
    · simp only [qerase, if_neg he, List.mem_cons]
      rintro (hh | hh)
      · exact he hh.symm
      · exact ih hxs hh

theorem supd_keys (ps : List (Nat × ProcRec)) (i : Nat) (r : ProcRec) :
    (supd ps i r).map (fun p => p.1) = ps.map (fun p => p.1) := by
  induction ps with
  | nil => rfl
  | cons hd tl ih =>
    by_cases hk : hd.1 = i
    · simp [supd, hk]
    · simp [supd, hk, ih]

theorem mem_supd_iff (ps : List (Nat × ProcRec)) (i : Nat) (r r' : ProcRec)
    (hk : (ps.map (fun p => p.1)).Nodup) (hp : plook ps i = some r) (q : Nat × ProcRec) :
    q ∈ supd ps i r' ↔ (q ∈ ps ∧ q.1 ≠ i) ∨ q = (i, r') := by
  induction ps with
  | nil => simp [plook] at hp
  | cons hd tl ih =>
    rcases List.nodup_cons.mp hk with ⟨hhd, htl⟩
    by_cases hke : hd.1 = i
    · have htlne : ∀ x ∈ tl, x.1 ≠ i := by
        intro x hx he
        apply hhd
        show hd.1 ∈ tl.map (fun p => p.1)
        rw [hke, ← he]
        exact List.mem_map_of_mem (fun p => p.1) hx
      show q ∈ (if hd.1 = i then (hd.1, r') :: tl else (hd.1, hd.2) :: supd tl i r') ↔ _
      rw [if_pos hke]
      simp only [List.mem_cons]
      constructor
      · rintro (he | hm)
        · exact Or.inr (by rw [he, hke])
        · exact Or.inl ⟨Or.inr hm, htlne q hm⟩
      · rintro (⟨hmem, hne⟩ | he)
        · rcases hmem with he2 | hm2
          · exact absurd ((congrArg Prod.fst he2).trans hke) hne
          · exact Or.inr hm2
        · exact Or.inl (by rw [he, hke])
    · simp only [plook, if_neg hke] at hp
      show q ∈ (if hd.1 = i then (hd.1, r') :: tl else (hd.1, hd.2) :: supd tl i r') ↔ _
      rw [if_neg hke]
      simp only [List.mem_cons]
      rw [ih htl hp]
      constructor
      · rintro (he | (⟨hm, hne⟩ | he))
        · refine Or.inl ⟨Or.inl he, ?_⟩
          rw [he]
          exact hke
        · exact Or.inl ⟨Or.inr hm, hne⟩
        · exact Or.inr he
      · rintro (⟨hmem, hne⟩ | he)
        · rcases hmem with he2 | hm2
          · exact Or.inl (by rw [he2])
          · exact Or.inr (Or.inl ⟨hm2, hne⟩)
        · exact Or.inr (Or.inr he)

theorem plook_supd_isSome (ps : List (Nat × ProcRec)) (i j : Nat) (r r' : ProcRec)
    (hp : plook ps i = some r) (h : j = i ∨ (plook ps j).isSome) :
    (plook (supd ps i r') j).isSome := by
  by_cases hji : j = i
  · subst hji
    rw [plook_supd_self ps j r r' hp]
    rfl
  · rw [plook_supd_ne ps i j r' hji]
    rcases h with he | hs
    · exact absurd he hji
    · exact hs

theorem plook_of_mem_nodup (ps : List (Nat × ProcRec)) (q : Nat × ProcRec)
    (h : q ∈ ps) (hk : (ps.map (fun p => p.1)).Nodup) : plook ps q.1 = some q.2 := by
  induction ps with
  | nil => cases h
  | cons hd tl ih =>
    rcases List.nodup_cons.mp hk with ⟨hhd, htl⟩
    rcases List.mem_cons.mp h with he | hm
    · subst he
      simp [plook]
    · have hne : ¬ (hd.1 = q.1) := by
        intro he
        apply hhd
        show hd.1 ∈ tl.map (fun p => p.1)
        rw [he]
        exact List.mem_map_of_mem (fun p => p.1) hm
      simp only [plook, if_neg hne]
      exact ih hm htl

/-- `process_set_state` preserves well-formedness (hence the queue
consistency invariant), for every argument including a null or dangling
record and every target state. -/
theorem set_state_WF (s : MState) (p : Option Nat) (st : ProcessState) (hwf : WF s) :
    WF (process_set_state s p st).2 := by
  cases p with
  | none => exact hwf
  | some i =>
    cases hp : plook s.procs i with
    | none =>
      show WF (match plook s.procs i with
        | none => (ErrorCode.ERR_SUCCESS, s)
        | some r =>
          (ErrorCode.ERR_SUCCESS,
            process_add_to_queue
              (process_remove_from_queue
                { s with procs := supd s.procs i { r with state := st } } i r.state) i st)).2
      rw [hp]
      exact hwf
    | some r =>
      show WF (match plook s.procs i with
        | none => (ErrorCode.ERR_SUCCESS, s)
        | some r =>
          (ErrorCode.ERR_SUCCESS,
            process_add_to_queue
              (process_remove_from_queue
                { s with procs := supd s.procs i { r with state := st } } i r.state) i st)).2
      rw [hp]
      show WF (process_add_to_queue (process_remove_from_queue
        { s with procs := supd s.procs i { r with state := st } } i r.state) i st)
      have hprocs : (process_add_to_queue (process_remove_from_queue
          { s with procs := supd s.procs i { r with state := st } } i r.state) i st).procs =
          supd s.procs i { r with state := st } := by
        rw [add_queue_procs, remove_queue_procs]
      have hready : (process_add_to_queue (process_remove_from_queue
          { s with procs := supd s.procs i { r with state := st } } i r.state) i st).ready_queue =
          (if st = ProcessState.READY then
            i :: (if r.state = ProcessState.READY then qerase s.ready_queue i else s.ready_queue)
          else if r.state = ProcessState.READY then qerase s.ready_queue i
               else s.ready_queue) := by
        rw [add_queue_ready, remove_queue_ready]
      have hblocked : (process_add_to_queue (process_remove_from_queue
          { s with procs := supd s.procs i { r with state := st } } i r.state) i st).blocked_queue =
          (if st = ProcessState.BLOCKED then
            i :: (if r.state = ProcessState.BLOCKED then qerase s.blocked_queue i
                  else s.blocked_queue)
          else if r.state = ProcessState.BLOCKED then qerase s.blocked_queue i
               else s.blocked_queue) := by
        rw [add_queue_blocked, remove_queue_blocked]
      have hzombie : (process_add_to_queue (process_remove_from_queue
          { s with procs := supd s.procs i { r with state := st } } i r.state) i st).zombie_queue =
          (if st = ProcessState.ZOMBIE then
            i :: (if r.state = ProcessState.ZOMBIE then qerase s.zombie_queue i else s.zombie_queue)
          else if r.state = ProcessState.ZOMBIE then qerase s.zombie_queue i
               else s.zombie_queue) := by
        rw [add_queue_zombie, remove_queue_zombie]
      have hpmem : (i, r) ∈ s.procs := plook_mem s.procs i r hp
      have hqi := hwf.queueInv (i, r) hpmem
      have hiR1 : i ∉ (if r.state = ProcessState.READY then qerase s.ready_queue i
          else s.ready_queue) := by
        by_cases hrr : r.state = ProcessState.READY
        · rw [if_pos hrr]
          exact qerase_not_mem_self _ _ hwf.readyNodup
        · rw [if_neg hrr]
          exact fun hmem => hrr (hqi.1.mpr hmem)
      have hiB1 : i ∉ (if r.state = ProcessState.BLOCKED then qerase s.blocked_queue i
          else s.blocked_queue) := by
        by_cases hrr : r.state = ProcessState.BLOCKED
        · rw [if_pos hrr]
          exact qerase_not_mem_self _ _ hwf.blockedNodup
        · rw [if_neg hrr]
          exact fun hmem => hrr (hqi.2.1.mpr hmem)
      have hiZ1 : i ∉ (if r.state = ProcessState.ZOMBIE then qerase s.zombie_queue i
          else s.zombie_queue) := by
        by_cases hrr : r.state = ProcessState.ZOMBIE
        · rw [if_pos hrr]
          exact qerase_not_mem_self _ _ hwf.zombieNodup
        · rw [if_neg hrr]
          exact fun hmem => hrr (hqi.2.2.mpr hmem)
      have hmemR : ∀ j, j ≠ i →
          ((j ∈ (if st = ProcessState.READY then
              i :: (if r.state = ProcessState.READY then qerase s.ready_queue i
                    else s.ready_queue)
            else if r.state = ProcessState.READY then qerase s.ready_queue i
                 else s.ready_queue)) ↔ j ∈ s.ready_queue) := by
        intro j hj
        by_cases hst : st = ProcessState.READY <;> by_cases hrr : r.state = ProcessState.READY <;>
          simp [hst, hrr, hj, qerase_mem_ne _ _ _ hj]
      have hmemB : ∀ j, j ≠ i →
          ((j ∈ (if st = ProcessState.BLOCKED then
              i :: (if r.state = ProcessState.BLOCKED then qerase s.blocked_queue i
                    else s.blocked_queue)
            else if r.state = ProcessState.BLOCKED then qerase s.blocked_queue i
                 else s.blocked_queue)) ↔ j ∈ s.blocked_queue) := by
        intro j hj
        by_cases hst : st = ProcessState.BLOCKED <;>
          by_cases hrr : r.state = ProcessState.BLOCKED <;>
          simp [hst, hrr, hj, qerase_mem_ne _ _ _ hj]
      have hmemZ : ∀ j, j ≠ i →
          ((j ∈ (if st = ProcessState.ZOMBIE then
              i :: (if r.state = ProcessState.ZOMBIE then qerase s.zombie_queue i
                    else s.zombie_queue)
            else if r.state = ProcessState.ZOMBIE then qerase s.zombie_queue i
                 else s.zombie_queue)) ↔ j ∈ s.zombie_queue) := by
        intro j hj
        by_cases hst : st = ProcessState.ZOMBIE <;>
          by_cases hrr : r.state = ProcessState.ZOMBIE <;>
          simp [hst, hrr, hj, qerase_mem_ne _ _ _ hj]
      refine ⟨?_, ?_, ?_, ?_, ?_, ?_, ?_, ?_⟩
      · rw [hprocs, supd_keys]
        exact hwf.keysNodup
      · intro j hj
        rw [hready] at hj
        rw [hprocs]
        apply plook_supd_isSome s.procs i j r _ hp
        by_cases hji : j = i
        · exact Or.inl hji
        · exact Or.inr (hwf.readyLive j ((hmemR j hji).mp hj))
      · intro j hj
        rw [hblocked] at hj
        rw [hprocs]
        apply plook_supd_isSome s.procs i j r _ hp
        by_cases hji : j = i
        · exact Or.inl hji
        · exact Or.inr (hwf.blockedLive j ((hmemB j hji).mp hj))
      · intro j hj
        rw [hzombie] at hj
        rw [hprocs]
        apply plook_supd_isSome s.procs i j r _ hp
        by_cases hji : j = i
        · exact Or.inl hji
        · exact Or.inr (hwf.zombieLive j ((hmemZ j hji).mp hj))
      · rw [hready]
        have hR1nd : (if r.state = ProcessState.READY then qerase s.ready_queue i
            else s.ready_queue).Nodup := by
          by_cases hrr : r.state = ProcessState.READY
          · rw [if_pos hrr]
            exact qerase_nodup _ _ hwf.readyNodup
          · rw [if_neg hrr]
            exact hwf.readyNodup
        by_cases hst : st = ProcessState.READY
        · rw [if_pos hst]
          exact List.nodup_cons.mpr ⟨hiR1, hR1nd⟩
        · rw [if_neg hst]
          exact hR1nd
      · rw [hblocked]
        have hB1nd : (if r.state = ProcessState.BLOCKED then qerase s.blocked_queue i
            else s.blocked_queue).Nodup := by
          by_cases hrr : r.state = ProcessState.BLOCKED
          · rw [if_pos hrr]
            exact qerase_nodup _ _ hwf.blockedNodup
          · rw [if_neg hrr]
            exact hwf.blockedNodup
        by_cases hst : st = ProcessState.BLOCKED
        · rw [if_pos hst]
          exact List.nodup_cons.mpr ⟨hiB1, hB1nd⟩
        · rw [if_neg hst]
          exact hB1nd
      · rw [hzombie]
        have hZ1nd : (if r.state = ProcessState.ZOMBIE then qerase s.zombie_queue i
            else s.zombie_queue).Nodup := by
          by_cases hrr : r.state = ProcessState.ZOMBIE
          · rw [if_pos hrr]
            exact qerase_nodup _ _ hwf.zombieNodup
          · rw [if_neg hrr]
            exact hwf.zombieNodup
        by_cases hst : st = ProcessState.ZOMBIE
        · rw [if_pos hst]
          exact List.nodup_cons.mpr ⟨hiZ1, hZ1nd⟩
        · rw [if_neg hst]
          exact hZ1nd
      · intro q hq
        rw [hprocs] at hq
        rcases (mem_supd_iff s.procs i r _ hwf.keysNodup hp q).mp hq with ⟨hmem, hne⟩ | he
        · have hold := hwf.queueInv q hmem
          refine ⟨?_, ?_, ?_⟩
          · rw [hready]
            exact hold.1.trans (hmemR q.1 hne).symm
          · rw [hblocked]
            exact hold.2.1.trans (hmemB q.1 hne).symm
          · rw [hzombie]
            exact hold.2.2.trans (hmemZ q.1 hne).symm
        · subst he
          refine ⟨?_, ?_, ?_⟩
          · show (st = ProcessState.READY) ↔ _
            rw [hready]
            by_cases hst : st = ProcessState.READY
            · simp [hst]
            · simp [hst, hiR1]
          · show (st = ProcessState.BLOCKED) ↔ _
            rw [hblocked]
            by_cases hst : st = ProcessState.BLOCKED
            · simp [hst]
            · simp [hst, hiB1]
          · show (st = ProcessState.ZOMBIE) ↔ _
            rw [hzombie]
            by_cases hst : st = ProcessState.ZOMBIE
            · simp [hst]
            · simp [hst, hiZ1]

/-- Transfer of well-formedness along equality of the relevant fields. -/
theorem WF_of_fields (s t : MState) (hp : t.procs = s.procs)
    (hr : t.ready_queue = s.ready_queue) (hb : t.blocked_queue = s.blocked_queue)
    (hz : t.zombie_queue = s.zombie_queue) (h : WF s) : WF t := by
  refine ⟨?_, ?_, ?_, ?_, ?_, ?_, ?_, ?_⟩
  · rw [hp]
    exact h.keysNodup
  · intro i hi
    rw [hp]
    rw [hr] at hi
    exact h.readyLive i hi
  · intro i hi
    rw [hp]
    rw [hb] at hi
    exact h.blockedLive i hi
  · intro i hi
    rw [hp]
    rw [hz] at hi
    exact h.zombieLive i hi
  · rw [hr]
    exact h.readyNodup
  · rw [hb]
    exact h.blockedNodup
  · rw [hz]
    exact h.zombieNodup
  · intro q hq
    rw [hp] at hq
    have h3 := h.queueInv q hq
    exact ⟨by rw [hr]; exact h3.1, by rw [hb]; exact h3.2.1, by rw [hz]; exact h3.2.2⟩

/-- `scheduler_select_next` changes nothing but the cursor. -/
theorem select_next_fields (s : MState) :
    (scheduler_select_next s).2.ready_queue = s.ready_queue ∧
    (scheduler_select_next s).2.blocked_queue = s.blocked_queue ∧
    (scheduler_select_next s).2.zombie_queue = s.zombie_queue ∧
    (scheduler_select_next s).2.procs = s.procs := by
  unfold scheduler_select_next
  split
  · exact ⟨rfl, rfl, rfl, rfl⟩
  · split <;> exact ⟨rfl, rfl, rfl, rfl⟩

theorem select_next_WF (s : MState) (hwf : WF s) : WF (scheduler_select_next s).2 := by
  have h := select_next_fields s
  exact WF_of_fields s (scheduler_select_next s).2 h.2.2.2 h.1 h.2.1 h.2.2.1 hwf

theorem plook_cons_isSome (ps : List (Nat × ProcRec)) (k j : Nat) (v : ProcRec)
    (h : (plook ps j).isSome) : (plook ((k, v) :: ps) j).isSome := by
  by_cases hk : k = j
  · simp [plook, hk]
  · simp [plook, hk, h]

/-- `process_create` preserves well-formedness, provided the allocator
hands out a PCB address that is not already a live record (true of any
real allocator). -/
theorem create_WF (s : MState) (nm : String) (priority ep : Nat) (hwf : WF s)
    (hfresh : s.allocs s.allocPtr ∉ s.procs.map (fun p => p.1)) :
    WF (process_create s nm priority ep).2 := by
  simp only [process_create, memAlloc]
  split
  · exact hwf
  · split
    · exact WF_of_fields s _ rfl rfl rfl rfl hwf
    · split
      · exact WF_of_fields s _ rfl rfl rfl rfl hwf
      · split
        · exact WF_of_fields s _ rfl rfl rfl rfl hwf
        · apply set_state_WF
          have hnone : plook s.procs (s.allocs s.allocPtr) = none :=
            plook_eq_none_of_not_mem s.procs _ hfresh
          refine ⟨?_, ?_, ?_, ?_, ?_, ?_, ?_, ?_⟩
          · exact List.nodup_cons.mpr ⟨hfresh, hwf.keysNodup⟩
          · intro j hj
            exact plook_cons_isSome s.procs _ j _ (hwf.readyLive j hj)
          · intro j hj
            exact plook_cons_isSome s.procs _ j _ (hwf.blockedLive j hj)
          · intro j hj
            exact plook_cons_isSome s.procs _ j _ (hwf.zombieLive j hj)
          · exact hwf.readyNodup
          · exact hwf.blockedNodup
          · exact hwf.zombieNodup
          · intro q hq
            rcases List.mem_cons.mp hq with he | hm
            · subst he
              have hnr : s.allocs s.allocPtr ∉ s.ready_queue := by
                intro hmem
                have := hwf.readyLive _ hmem
                rw [hnone] at this
                simp at this
              have hnb : s.allocs s.allocPtr ∉ s.blocked_queue := by
                intro hmem
                have := hwf.blockedLive _ hmem
                rw [hnone] at this
                simp at this
              have hnz : s.allocs s.allocPtr ∉ s.zombie_queue := by
                intro hmem
                have := hwf.zombieLive _ hmem
                rw [hnone] at this
                simp at this
              exact ⟨iff_of_false (by simp) hnr, iff_of_false (by simp) hnb,
                iff_of_false (by simp) hnz⟩
            · exact hwf.queueInv q hm

theorem serase_sublist_pairs (ps : List (Nat × ProcRec)) (i : Nat) :
    (serase ps i).Sublist ps := by
  induction ps with
  | nil => simp [serase]
  | cons hd tl ih =>
    by_cases hk : hd.1 = i
    · simp only [serase, if_pos hk]
      exact List.sublist_cons_self hd tl
    · simp only [serase, if_neg hk]
      exact ih.cons₂ hd

theorem foldl_serase_sublist (l : List Nat) (ps : List (Nat × ProcRec)) :
    (l.foldl serase ps).Sublist ps := by
  induction l generalizing ps with
  | nil => exact List.Sublist.refl ps
  | cons i l ih =>
    rw [List.foldl_cons]
    exact (ih (serase ps i)).trans (serase_sublist_pairs ps i)

theorem reap_WF (s : MState) (hwf : WF s) : WF (process_reap_zombies s) := by
  have hprocs : (process_reap_zombies s).procs = s.zombie_queue.foldl serase s.procs := by
    show (s.zombie_queue.foldl reapOne s).procs = _
    exact foldl_reapOne_procs _ _
  have hready : (process_reap_zombies s).ready_queue = s.ready_queue := by
    show (s.zombie_queue.foldl reapOne s).ready_queue = _
    exact foldl_reapOne_ready _ _
  have hblocked : (process_reap_zombies s).blocked_queue = s.blocked_queue := by
    show (s.zombie_queue.foldl reapOne s).blocked_queue = _
    exact foldl_reapOne_blocked _ _
  have hzombie : (process_reap_zombies s).zombie_queue = [] := rfl
  have hkeys2 : (((s.zombie_queue.foldl serase s.procs)).map (fun p => p.1)).Nodup :=
    ((foldl_serase_sublist _ _).map _).nodup hwf.keysNodup
  have hstate : ∀ j (rj : ProcRec), plook s.procs j = some rj →
      j ∈ s.zombie_queue → rj.state = ProcessState.ZOMBIE := by
    intro j rj hpl hz
    exact (hwf.queueInv (j, rj) (plook_mem _ _ _ hpl)).2.2.mpr hz
  have hzsubR : ∀ j ∈ s.ready_queue, j ∉ s.zombie_queue := by
    intro j hjr hjz
    have hl := hwf.readyLive j hjr
    cases hpl : plook s.procs j with
    | none => rw [hpl] at hl; simp at hl
    | some rj =>
      have h1 := (hwf.queueInv (j, rj) (plook_mem _ _ _ hpl)).1.mpr hjr
      have h2 := hstate j rj hpl hjz
      rw [h1] at h2
      cases h2
  have hzsubB : ∀ j ∈ s.blocked_queue, j ∉ s.zombie_queue := by
    intro j hjr hjz
    have hl := hwf.blockedLive j hjr
    cases hpl : plook s.procs j with
    | none => rw [hpl] at hl; simp at hl
    | some rj =>
      have h1 := (hwf.queueInv (j, rj) (plook_mem _ _ _ hpl)).2.1.mpr hjr
      have h2 := hstate j rj hpl hjz
      rw [h1] at h2
      cases h2
  refine ⟨?_, ?_, ?_, ?_, ?_, ?_, ?_, ?_⟩
  · rw [hprocs]
    exact hkeys2
  · intro j hj
    rw [hready] at hj
    rw [hprocs, plook_foldl_serase _ _ _ hwf.keysNodup, if_neg (hzsubR j hj)]
    exact hwf.readyLive j hj
  · intro j hj
    rw [hblocked] at hj
    rw [hprocs, plook_foldl_serase _ _ _ hwf.keysNodup, if_neg (hzsubB j hj)]
    exact hwf.blockedLive j hj
  · intro j hj
    rw [hzombie] at hj
    cases hj
  · rw [hready]
    exact hwf.readyNodup
  · rw [hblocked]
    exact hwf.blockedNodup
  · rw [hzombie]
    exact List.nodup_nil
  · intro q hq
    rw [hprocs] at hq
    have hqmem : q ∈ s.procs := (foldl_serase_sublist _ _).subset hq
    have hnz : q.1 ∉ s.zombie_queue := by
      intro hz
      have h1 : plook (s.zombie_queue.foldl serase s.procs) q.1 = none := by
        rw [plook_foldl_serase _ _ _ hwf.keysNodup, if_pos hz]
      have h2 : plook (s.zombie_queue.foldl serase s.procs) q.1 = some q.2 :=
        plook_of_mem_nodup _ q hq hkeys2
      rw [h1] at h2
      cases h2
    have hold := hwf.queueInv q hqmem
    refine ⟨?_, ?_, ?_⟩
    · rw [hready]
      exact hold.1
    · rw [hblocked]
      exact hold.2.1
    · rw [hzombie]
      exact iff_of_false (fun hzs => hnz (hold.2.2.mp hzs)) (List.not_mem_nil q.1)

/-! ### Claim C1 -/

/-- Counterexample to C1 as stated: the fresh manager satisfies the
queue-consistency invariant, but one `process_switch` (dispatching idle)
breaks it — the switched-to record is made RUNNING by a direct field
write while it stays in the ready queue. -/
theorem c1_counterexample :
    QueueInv initFresh ∧ ¬ QueueInv (process_switch initFresh none (some 1)) := by
  constructor
  · decide
  · decide

/-- Claim C1 (corrected): the queue-membership/state consistency
invariant (together with well-formedness of the intrusive queues) is
preserved by `process_create` (when the allocator returns a fresh PCB
address), by `process_set_state` (for every argument), by
`scheduler_select_next` and by `process_reap_zombies` — but NOT by
`process_switch`, which writes the `state` fields of `from` and `to`
directly without requeueing (see `c1_counterexample`). -/
theorem c1_amended_invariant (s : MState) (hwf : WF s) :
    (∀ nm priority ep, s.allocs s.allocPtr ∉ s.procs.map (fun p => p.1) →
      WF (process_create s nm priority ep).2) ∧
    (∀ p st, WF (process_set_state s p st).2) ∧
    WF (scheduler_select_next s).2 ∧
    WF (process_reap_zombies s) :=
  ⟨fun nm priority ep hfresh => create_WF s nm priority ep hwf hfresh,
   fun p st => set_state_WF s p st hwf,
   select_next_WF s hwf,
   reap_WF s hwf⟩

/-- Witness for the amended C1 at the concrete scenario state. -/
theorem c1_amended_invariant_witness :
    WF s3state ∧
    s3state.allocs s3state.allocPtr ∉ s3state.procs.map (fun p => p.1) ∧
    WF (process_create s3state "C" 1 0).2 ∧
    WF (process_set_state s3state (some 4) ProcessState.BLOCKED).2 ∧
    WF (scheduler_select_next s3state).2 ∧
    WF (process_reap_zombies s3state) := by
  have hwf : WF s3state := ⟨by decide, by decide, by decide, by decide, by decide,
    by decide, by decide, by decide⟩
  have h := c1_amended_invariant s3state hwf
  exact ⟨hwf, by decide, h.1 "C" 1 0 (by decide), h.2.1 (some 4) ProcessState.BLOCKED,
    h.2.2.1, h.2.2.2⟩

/-! ### Round-robin rotation (C6) -/

/-- Outputs and final state of `n` consecutive `scheduler_select_next`
calls starting from `s`. -/
def selectRun : MState → Nat → List (Option Nat) × MState
  | s, 0 => ([], s)
  | s, n + 1 =>
    ((scheduler_select_next s).1 :: (selectRun (scheduler_select_next s).2 n).1,
     (selectRun (scheduler_select_next s).2 n).2)

theorem get_val_congr (Q : List Nat) (a b : Nat) (ha : a < Q.length) (hb : b < Q.length)
    (h : a = b) : Q.get ⟨a, ha⟩ = Q.get ⟨b, hb⟩ := by
  subst h
  rfl

theorem suffixAfter_get (Q : List Nat) : ∀ (k : Nat) (hk : k < Q.length), Q.Nodup →
    suffixAfter Q (Q.get ⟨k, hk⟩) = Q.drop (k + 1) := by
  induction Q with
  | nil =>
    intro k hk _
    simp at hk
  | cons x xs ih =>
    intro k hk hnd
    rcases List.nodup_cons.mp hnd with ⟨hx, hxs⟩
    cases k with
    | zero => simp [suffixAfter]
    | succ k =>
      have hk2 : k < xs.length := by simpa using hk
      have hne : ¬ (x = (x :: xs).get ⟨k + 1, hk⟩) := by
        intro he
        apply hx
        rw [he]
        exact xs.get_mem k hk2
      show (if x = (x :: xs).get ⟨k + 1, hk⟩ then xs
        else suffixAfter xs ((x :: xs).get ⟨k + 1, hk⟩)) = _
      rw [if_neg hne]
      exact ih k hk2 hxs

theorem suffixAfter_subset (l : List Nat) (i y : Nat) (h : y ∈ suffixAfter l i) : y ∈ l := by
  induction l with
  | nil => cases h
  | cons x xs ih =>
    by_cases hx : x = i
    · simp only [suffixAfter, if_pos hx] at h
      exact List.mem_cons_of_mem x h
    · simp only [suffixAfter, if_neg hx] at h
      exact List.mem_cons_of_mem x (ih h)

theorem selectFrom_at (s : MState) (Q : List Nat) (hQ : s.ready_queue = Q)
    (hnd : Q.Nodup) (hpos : 0 < Q.length)
    (hrdy : ∀ i ∈ Q, isReadyB s i = true)
    (k : Nat) (hk : k < Q.length) :
    selectFrom s (Q.get ⟨k, hk⟩) =
      some (Q.get ⟨(k + 1) % Q.length, Nat.mod_lt _ hpos⟩) := by
  have hmem : Q.get ⟨k, hk⟩ ∈ Q := Q.get_mem k hk
  have hcont : containing s (Q.get ⟨k, hk⟩) = Q := by
    unfold containing
    rw [hQ, if_pos hmem]
  unfold selectFrom
  rw [hcont, suffixAfter_get Q k hk hnd, hQ]
  by_cases hlt : k + 1 < Q.length
  · rw [List.drop_eq_getElem_cons hlt]
    have hfind : List.find? (fun i => isReadyB s i) (Q[k+1] :: Q.drop (k + 1 + 1)) =
        some Q[k+1] :=
      List.find?_cons_of_pos _ (hrdy _ (Q.get_mem (k + 1) hlt))
    rw [hfind]
    exact congrArg some (get_val_congr Q (k + 1) ((k + 1) % Q.length) hlt
      (Nat.mod_lt _ hpos) (Nat.mod_eq_of_lt hlt).symm)
  · have hk1 : k + 1 = Q.length := by omega
    have hdrop : Q.drop (k + 1) = [] := by
      rw [hk1]
      exact List.drop_length Q
    rw [hdrop]
    show Q.find? (fun i => isReadyB s i) =
      some (Q.get ⟨(k + 1) % Q.length, Nat.mod_lt _ hpos⟩)
    have hmod : (k + 1) % Q.length = 0 := by
      rw [hk1]
      exact Nat.mod_self _
    cases Q with
    | nil => simp at hpos
    | cons hq tq =>
      have hfind : List.find? (fun i => isReadyB s i) (hq :: tq) = some hq :=
        List.find?_cons_of_pos _ (hrdy hq (List.mem_cons_self hq tq))
      rw [hfind]
      exact congrArg some (get_val_congr (hq :: tq) 0 ((k + 1) % (hq :: tq).length)
        (by simp) (Nat.mod_lt _ hpos) hmod.symm)

theorem select_step (s : MState) (Q : List Nat) (hQ : s.ready_queue = Q)
    (hnd : Q.Nodup) (hpos : 0 < Q.length)
    (hrdy : ∀ i ∈ Q, isReadyB s i = true)
    (k : Nat) (hk : k < Q.length)
    (hlast : s.last = some (Q.get ⟨k, hk⟩)) :
    scheduler_select_next s =
      (some (Q.get ⟨(k + 1) % Q.length, Nat.mod_lt _ hpos⟩),
       { s with last := some (Q.get ⟨(k + 1) % Q.length, Nat.mod_lt _ hpos⟩) }) := by
  obtain ⟨hq, tq, hQc⟩ : ∃ a l, Q = a :: l := by
    cases Q with
    | nil => simp at hpos
    | cons a l => exact ⟨a, l, rfl⟩
  subst hQc
  unfold scheduler_select_next
  rw [hQ]
  dsimp only
  have hcur : cursorOf s hq = (hq :: tq).get ⟨k, hk⟩ := by
    unfold cursorOf
    rw [hlast]
  rw [hcur, selectFrom_at s (hq :: tq) hQ hnd hpos hrdy k hk]

theorem select_step_out (s : MState) (Q : List Nat) (hQ : s.ready_queue = Q)
    (hpos : 0 < Q.length)
    (hrdy : ∀ i ∈ Q, isReadyB s i = true)
    (hblk : ∀ i ∈ s.blocked_queue, isReadyB s i = false)
    (hzmb : ∀ i ∈ s.zombie_queue, isReadyB s i = false)
    (x : Nat) (hlast : s.last = some x) (hx : x ∉ Q) :
    scheduler_select_next s =
      (some (Q.get ⟨0, hpos⟩), { s with last := some (Q.get ⟨0, hpos⟩) }) := by
  obtain ⟨hq, tq, hQc⟩ : ∃ a l, Q = a :: l := by
    cases Q with
    | nil => simp at hpos
    | cons a l => exact ⟨a, l, rfl⟩
  subst hQc
  unfold scheduler_select_next
  rw [hQ]
  dsimp only
  have hcur : cursorOf s hq = x := by
    unfold cursorOf
    rw [hlast]
  rw [hcur]
  have hsuffnone : (suffixAfter (containing s x) x).find? (fun i => isReadyB s i) = none := by
    apply List.find?_eq_none.mpr
    intro y hy
    have hyc : y ∈ containing s x := suffixAfter_subset _ _ _ hy
    unfold containing at hyc
    rw [hQ] at hyc
    rw [if_neg hx] at hyc
    by_cases hb : x ∈ s.blocked_queue
    · rw [if_pos hb] at hyc
      simp [hblk y hyc]
    · rw [if_neg hb] at hyc
      by_cases hz : x ∈ s.zombie_queue
      · rw [if_pos hz] at hyc
        simp [hzmb y hyc]
      · rw [if_neg hz] at hyc
        cases hyc
  have hsel : selectFrom s x = some ((hq :: tq).get ⟨0, hpos⟩) := by
    unfold selectFrom
    rw [hsuffnone]
    show s.ready_queue.find? (fun i => isReadyB s i) = _
    rw [hQ, List.find?_cons_of_pos _ (hrdy hq (List.mem_cons_self hq tq))]
    rfl
  rw [hsel]

theorem select_step_none (s : MState) (Q : List Nat) (hQ : s.ready_queue = Q)
    (hnd : Q.Nodup) (hpos : 0 < Q.length)
    (hrdy : ∀ i ∈ Q, isReadyB s i = true)
    (hlast : s.last = none) :
    scheduler_select_next s =
      (some (Q.get ⟨1 % Q.length, Nat.mod_lt _ hpos⟩),
       { s with last := some (Q.get ⟨1 % Q.length, Nat.mod_lt _ hpos⟩) }) := by
  obtain ⟨hq, tq, hQc⟩ : ∃ a l, Q = a :: l := by
    cases Q with
    | nil => simp at hpos
    | cons a l => exact ⟨a, l, rfl⟩
  subst hQc
  unfold scheduler_select_next
  rw [hQ]
  dsimp only
  have hcur : cursorOf s hq = (hq :: tq).get ⟨0, hpos⟩ := by
    unfold cursorOf
    rw [hlast]
    rfl
  rw [hcur, selectFrom_at s (hq :: tq) hQ hnd hpos hrdy 0 hpos]

theorem select_step_exists (s : MState) (Q : List Nat) (hQ : s.ready_queue = Q)
    (hnd : Q.Nodup) (hpos : 0 < Q.length)
    (hrdy : ∀ i ∈ Q, isReadyB s i = true)
    (hblk : ∀ i ∈ s.blocked_queue, isReadyB s i = false)
    (hzmb : ∀ i ∈ s.zombie_queue, isReadyB s i = false) :
    ∃ k0, ∃ hk0 : k0 < Q.length,
      scheduler_select_next s =
        (some (Q.get ⟨(k0 + 1) % Q.length, Nat.mod_lt _ hpos⟩),
         { s with last := some (Q.get ⟨(k0 + 1) % Q.length, Nat.mod_lt _ hpos⟩) }) := by
  cases hlast : s.last with
  | none => exact ⟨0, hpos, select_step_none s Q hQ hnd hpos hrdy hlast⟩
  | some x =>
    by_cases hx : x ∈ Q
    · have hidx : List.indexOf x Q < Q.length := List.indexOf_lt_length.mpr hx
      refine ⟨List.indexOf x Q, hidx, ?_⟩
      exact select_step s Q hQ hnd hpos hrdy _ hidx
        (by rw [hlast, List.indexOf_get hidx])
    · refine ⟨Q.length - 1, by omega, ?_⟩
      rw [select_step_out s Q hQ hpos hrdy hblk hzmb x hlast hx]
      have h0 : 0 = (Q.length - 1 + 1) % Q.length := by
        have he : Q.length - 1 + 1 = Q.length := by omega
        rw [he, Nat.mod_self]
      rw [get_val_congr Q 0 ((Q.length - 1 + 1) % Q.length) hpos (Nat.mod_lt _ hpos) h0]

theorem selectRun_spec (Q : List Nat) (hnd : Q.Nodup) (hpos : 0 < Q.length) :
    ∀ (n k : Nat) (s : MState), s.ready_queue = Q →
      (∀ i ∈ Q, isReadyB s i = true) →
      ∀ (hk : k < Q.length), s.last = some (Q.get ⟨k, hk⟩) →
      (selectRun s n).1 = (List.range n).map
          (fun m => some (Q.get ⟨(k + 1 + m) % Q.length, Nat.mod_lt _ hpos⟩)) ∧
      (selectRun s n).2 =
        { s with last := some (Q.get ⟨(k + n) % Q.length, Nat.mod_lt _ hpos⟩) } := by
  intro n
  induction n with
  | zero =>
    intro k s hQ hrdy hk hlast
    refine ⟨rfl, ?_⟩
    show s = _
    rw [get_val_congr Q ((k + 0) % Q.length) k (Nat.mod_lt _ hpos) hk
      (by simp [Nat.mod_eq_of_lt hk]), ← hlast]
  | succ n ih =>
    intro k s hQ hrdy hk hlast
    have hstep := select_step s Q hQ hnd hpos hrdy k hk hlast
    have hk1 : (k + 1) % Q.length < Q.length := Nat.mod_lt _ hpos
    have hih := ih ((k + 1) % Q.length)
      { s with last := some (Q.get ⟨(k + 1) % Q.length, Nat.mod_lt _ hpos⟩) }
      hQ hrdy hk1 rfl
    constructor
    · show (scheduler_select_next s).1 :: (selectRun (scheduler_select_next s).2 n).1 = _
      rw [hstep]
      dsimp only
      rw [hih.1, List.range_succ_eq_map, List.map_cons, List.map_map]
      congr 1
      apply List.map_congr_left
      intro m hm
      refine congrArg some (get_val_congr Q _ _ (Nat.mod_lt _ hpos) (Nat.mod_lt _ hpos) ?_)
      have h3 : (k + 1) % Q.length + 1 + m = (k + 1) % Q.length + (1 + m) := by omega
      rw [h3, Nat.mod_add_mod]
      have h4 : k + 1 + (1 + m) = k + 1 + Nat.succ m := by omega
      rw [h4]
    · show (selectRun (scheduler_select_next s).2 n).2 = _
      rw [hstep]
      dsimp only
      rw [hih.2]
      have harith : ((k + 1) % Q.length + n) % Q.length = (k + (n + 1)) % Q.length := by
        rw [Nat.mod_add_mod]
        have h5 : k + 1 + n = k + (n + 1) := by omega
        rw [h5]
      rw [get_val_congr Q _ _ (Nat.mod_lt _ hpos) (Nat.mod_lt _ hpos) harith]

theorem selectRun_add (s : MState) (m n : Nat) :
    (selectRun s (m + n)).1 = (selectRun s m).1 ++ (selectRun (selectRun s m).2 n).1 ∧
    (selectRun s (m + n)).2 = (selectRun (selectRun s m).2 n).2 := by
  induction m generalizing s with
  | zero =>
    rw [Nat.zero_add]
    exact ⟨(List.nil_append _).symm, rfl⟩
  | succ m ih =>
    have hmn : m + 1 + n = (m + n) + 1 := by omega
    rw [hmn]
    constructor
    · show (scheduler_select_next s).1 :: (selectRun (scheduler_select_next s).2 (m + n)).1 = _
      rw [(ih (scheduler_select_next s).2).1]
      rfl
    · show (selectRun (scheduler_select_next s).2 (m + n)).2 = _
      rw [(ih (scheduler_select_next s).2).2]
      rfl

theorem selectRun_start (s : MState)
    (hnd : s.ready_queue.Nodup) (hpos : 0 < s.ready_queue.length)
    (hrdy : ∀ i ∈ s.ready_queue, isReadyB s i = true)
    (hblk : ∀ i ∈ s.blocked_queue, isReadyB s i = false)
    (hzmb : ∀ i ∈ s.zombie_queue, isReadyB s i = false) :
    ∃ k1, ∃ hk1 : k1 < s.ready_queue.length,
      ∀ n, (selectRun s (n + 1)).1 = (List.range (n + 1)).map
          (fun m => some (s.ready_queue.get
            ⟨(k1 + m) % s.ready_queue.length, Nat.mod_lt _ hpos⟩)) ∧
        (selectRun s (n + 1)).2 =
          { s with last := some (s.ready_queue.get
              ⟨(k1 + n) % s.ready_queue.length, Nat.mod_lt _ hpos⟩) } := by
  obtain ⟨k0, hk0, hstep⟩ := select_step_exists s s.ready_queue rfl hnd hpos hrdy hblk hzmb
  refine ⟨(k0 + 1) % s.ready_queue.length, Nat.mod_lt _ hpos, ?_⟩
  intro n
  have hk1 : (k0 + 1) % s.ready_queue.length < s.ready_queue.length := Nat.mod_lt _ hpos
  have hspec := selectRun_spec s.ready_queue hnd hpos n ((k0 + 1) % s.ready_queue.length)
    { s with last := some (s.ready_queue.get
        ⟨(k0 + 1) % s.ready_queue.length, Nat.mod_lt _ hpos⟩) }
    rfl hrdy hk1 rfl
  constructor
  · show (scheduler_select_next s).1 :: (selectRun (scheduler_select_next s).2 n).1 = _
    rw [hstep]
    dsimp only
    rw [hspec.1, List.range_succ_eq_map, List.map_cons, List.map_map]
    congr 1
    · exact congrArg some (get_val_congr _ _ _ (Nat.mod_lt _ hpos) (Nat.mod_lt _ hpos)
        (by simp [Nat.mod_eq_of_lt hk1]))
    · apply List.map_congr_left
      intro m hm
      refine congrArg some (get_val_congr _ _ _ (Nat.mod_lt _ hpos) (Nat.mod_lt _ hpos) ?_)
      have h3 : (k0 + 1) % s.ready_queue.length + 1 + m =
          (k0 + 1) % s.ready_queue.length + Nat.succ m := by omega
      rw [h3]
  · show (selectRun (scheduler_select_next s).2 n).2 = _
    rw [hstep]
    dsimp only
    rw [hspec.2]

/-! ### Claim C6 -/

/-- Claim C6 (confirmed): with N processes continuously READY in the
ready queue (and no record outside it READY), N consecutive
`select_next` calls return each of the N records exactly once (the
output list is a permutation of the ready queue), and the next N calls
repeat exactly the same sequence — a stable rotation. -/
theorem c6_round_robin (s : MState)
    (hnd : s.ready_queue.Nodup) (hpos : 0 < s.ready_queue.length)
    (hrdy : ∀ i ∈ s.ready_queue, isReadyB s i = true)
    (hblk : ∀ i ∈ s.blocked_queue, isReadyB s i = false)
    (hzmb : ∀ i ∈ s.zombie_queue, isReadyB s i = false) :
    List.Perm (selectRun s s.ready_queue.length).1 (s.ready_queue.map some) ∧
    (selectRun s (s.ready_queue.length + s.ready_queue.length)).1 =
      (selectRun s s.ready_queue.length).1 ++ (selectRun s s.ready_queue.length).1 := by
  obtain ⟨k1, hk1, hrun⟩ := selectRun_start s hnd hpos hrdy hblk hzmb
  obtain ⟨M, hN⟩ : ∃ m, s.ready_queue.length = m + 1 := ⟨s.ready_queue.length - 1, by omega⟩
  have hout1 : (selectRun s s.ready_queue.length).1 =
      (List.range s.ready_queue.length).map
        (fun m => some (s.ready_queue.get
          ⟨(k1 + m) % s.ready_queue.length, Nat.mod_lt _ hpos⟩)) := by
    have h := (hrun M).1
    rw [← hN] at h
    exact h
  have hstate : (selectRun s s.ready_queue.length).2 =
      { s with last := some (s.ready_queue.get
          ⟨(k1 + M) % s.ready_queue.length, Nat.mod_lt _ hpos⟩) } := by
    have h := (hrun M).2
    rw [← hN] at h
    exact h
  have hrot : (selectRun s s.ready_queue.length).1 =
      (s.ready_queue.rotate k1).map some := by
    rw [hout1]
    apply List.ext_get
    · simp [List.length_rotate]
    · intro j h1 h2
      simp only [List.get_map, List.get_rotate, List.get_range]
      exact congrArg some (get_val_congr s.ready_queue
        ((k1 + j) % s.ready_queue.length) ((j + k1) % s.ready_queue.length)
        (Nat.mod_lt _ hpos) (Nat.mod_lt _ hpos) (by rw [Nat.add_comm]))
  refine ⟨?_, ?_⟩
  · rw [hrot]
    exact (List.rotate_perm s.ready_queue k1).map some
  · rw [(selectRun_add s s.ready_queue.length s.ready_queue.length).1, hstate]
    have hk2 : (k1 + M) % s.ready_queue.length < s.ready_queue.length := Nat.mod_lt _ hpos
    have hspec2 := selectRun_spec s.ready_queue hnd hpos s.ready_queue.length
      ((k1 + M) % s.ready_queue.length)
      { s with last := some (s.ready_queue.get
          ⟨(k1 + M) % s.ready_queue.length, Nat.mod_lt _ hpos⟩) }
      rfl hrdy hk2 rfl
    rw [hspec2.1, hout1]
    congr 1
    apply List.map_congr_left
    intro m hm
    refine congrArg some (get_val_congr _ _ _ (Nat.mod_lt _ hpos) (Nat.mod_lt _ hpos) ?_)
    have h3 : (k1 + M) % s.ready_queue.length + 1 + m =
        (k1 + M) % s.ready_queue.length + (1 + m) := by omega
    rw [h3, Nat.mod_add_mod]
    have h4 : k1 + M + (1 + m) = k1 + m + s.ready_queue.length := by omega
    rw [h4, Nat.add_mod_right]

/-- Witness for C6 at the concrete idle/A/B scenario (N = 3). -/
theorem c6_round_robin_witness :
    (s3state.ready_queue.Nodup ∧ 0 < s3state.ready_queue.length ∧
     (∀ i ∈ s3state.ready_queue, isReadyB s3state i = true) ∧
     (∀ i ∈ s3state.blocked_queue, isReadyB s3state i = false) ∧
     (∀ i ∈ s3state.zombie_queue, isReadyB s3state i = false)) ∧
    List.Perm (selectRun s3state s3state.ready_queue.length).1
      (s3state.ready_queue.map some) ∧
    (selectRun s3state (s3state.ready_queue.length + s3state.ready_queue.length)).1 =
      (selectRun s3state s3state.ready_queue.length).1 ++
        (selectRun s3state s3state.ready_queue.length).1 :=
  ⟨⟨by decide, by decide, by decide, by decide, by decide⟩,
   c6_round_robin s3state (by decide) (by decide) (by decide) (by decide) (by decide)⟩

/-! ### Operation sequences (C5) -/

/-- The operations of the core that C5 quantifies over: creations
interleaved with state changes (addressing a record through the core's
own lookup operations) and reaps. -/
inductive Op where
  | create (name : String) (priority entry_point : Nat)
  | setStateByName (name : String) (st : ProcessState)
  | setStateByPid (pid : Nat) (st : ProcessState)
  | reap

/-- Execute one operation; the second component is the pid assigned when
the operation is a successful creation. -/
def execOp (s : MState) : Op → MState × Option Nat
  | Op.create nm pr ep =>
    match process_create s nm pr ep with
    | (some i, s2) => (s2, (plook s2.procs i).map (fun r => r.pid))
    | (none, s2) => (s2, none)
  | Op.setStateByName nm st => ((process_set_state s (process_find s nm) st).2, none)
  | Op.setStateByPid p st => ((process_set_state s (process_find_by_pid s p) st).2, none)
  | Op.reap => (process_reap_zombies s, none)

/-- Run a sequence of operations, collecting the pids assigned by
successful creations, in order. -/
def runOps (s : MState) : List Op → MState × List Nat
  | [] => (s, [])
  | op :: ops =>
    ((runOps (execOp s op).1 ops).1,
     match (execOp s op).2 with
     | some pid => pid :: (runOps (execOp s op).1 ops).2
     | none => (runOps (execOp s op).1 ops).2)

theorem remove_queue_rest (s : MState) (i : Nat) (st : ProcessState) :
    (process_remove_from_queue s i st).next_pid = s.next_pid ∧
    (process_remove_from_queue s i st).allocs = s.allocs ∧
    (process_remove_from_queue s i st).allocPtr = s.allocPtr ∧
    (process_remove_from_queue s i st).process_count = s.process_count ∧
    (process_remove_from_queue s i st).process_table = s.process_table ∧
    (process_remove_from_queue s i st).freedLog = s.freedLog := by
  cases st <;> exact ⟨rfl, rfl, rfl, rfl, rfl, rfl⟩

theorem add_queue_rest (s : MState) (i : Nat) (st : ProcessState) :
    (process_add_to_queue s i st).next_pid = s.next_pid ∧
    (process_add_to_queue s i st).allocs = s.allocs ∧
    (process_add_to_queue s i st).allocPtr = s.allocPtr ∧
    (process_add_to_queue s i st).process_count = s.process_count ∧
    (process_add_to_queue s i st).process_table = s.process_table ∧
    (process_add_to_queue s i st).freedLog = s.freedLog := by
  cases st <;> exact ⟨rfl, rfl, rfl, rfl, rfl, rfl⟩

theorem set_state_misc (s : MState) (p : Option Nat) (st : ProcessState) :
    (process_set_state s p st).2.next_pid = s.next_pid ∧
    (process_set_state s p st).2.allocs = s.allocs := by
  cases p with
  | none => exact ⟨rfl, rfl⟩
  | some i =>
    cases hp : plook s.procs i with
    | none =>
      constructor
      · simp [process_set_state, hp]
      · simp [process_set_state, hp]
    | some r =>
      constructor
      · simp only [process_set_state, hp]
        rw [(add_queue_rest _ _ _).1, (remove_queue_rest _ _ _).1]
      · simp only [process_set_state, hp]
        rw [(add_queue_rest _ _ _).2.1, (remove_queue_rest _ _ _).2.1]

theorem foldl_reapOne_next_pid (l : List Nat) (s : MState) :
    (l.foldl reapOne s).next_pid = s.next_pid := by
  induction l generalizing s with
  | nil => rfl
  | cons i l ih => rw [List.foldl_cons, ih, (reapOne_fields s i).2.2.2.2.2.2.1]

theorem foldl_reapOne_allocs (l : List Nat) (s : MState) :
    (l.foldl reapOne s).allocs = s.allocs := by
  induction l generalizing s with
  | nil => rfl
  | cons i l ih => rw [List.foldl_cons, ih, (reapOne_fields s i).2.2.2.2.2.2.2.1]

theorem reap_misc (s : MState) :
    (process_reap_zombies s).next_pid = s.next_pid ∧
    (process_reap_zombies s).allocs = s.allocs := by
  constructor
  · show (s.zombie_queue.foldl reapOne s).next_pid = _
    exact foldl_reapOne_next_pid _ _
  · show (s.zombie_queue.foldl reapOne s).allocs = _
    exact foldl_reapOne_allocs _ _

theorem create_fail_capacity (s : MState) (nm : String) (pr ep : Nat)
    (h : MAX_PROCESSES ≤ s.process_count) :
    process_create s nm pr ep = (none, s) := by
  simp [process_create, h]

theorem create_allocs (s : MState) (nm : String) (pr ep : Nat) :
    (process_create s nm pr ep).2.allocs = s.allocs := by
  simp only [process_create, memAlloc, memFree]
  split
  · rfl
  · split
    · rfl
    · split
      · rfl
      · split
        · rfl
        · exact (set_state_misc _ _ _).2

theorem create_success_exec (s : MState) (nm : String) (pr ep : Nat)
    (hcap : s.process_count < MAX_PROCESSES)
    (h1 : s.allocs s.allocPtr ≠ 0) (h2 : s.allocs (s.allocPtr + 1) ≠ 0)
    (h3 : s.allocs (s.allocPtr + 2) ≠ 0) :
    (process_create s nm pr ep).1 = some (s.allocs s.allocPtr) ∧
    (process_create s nm pr ep).2.next_pid = (s.next_pid + 1) % U32 ∧
    (plook (process_create s nm pr ep).2.procs (s.allocs s.allocPtr)).map
      (fun r => r.pid) = some s.next_pid := by
  have hlt : ¬ MAX_PROCESSES ≤ s.process_count := Nat.not_le.mpr hcap
  have h3b : s.allocs (s.allocPtr + 1 + 1) ≠ 0 := h3
  refine ⟨?_, ?_, ?_⟩
  · simp [process_create, memAlloc, hlt, h1, h2, h3]
  · simp only [process_create, memAlloc]
    rw [if_neg hlt, if_neg h1, if_neg h2, if_neg h3b]
    exact (set_state_misc _ _ _).1
  · simp only [process_create, memAlloc]
    rw [if_neg hlt, if_neg h1, if_neg h2, if_neg h3b]
    have hpl : plook ((s.allocs s.allocPtr,
        { pid := s.next_pid, name := nm, state := ProcessState.NEW, priority := pr,
          entry_point := ep, stack_base := s.allocs (s.allocPtr + 1), stack_size := 16 * KB,
          heap_base := s.allocs (s.allocPtr + 1 + 1), heap_size := 64 * KB,
          registers := initRegisters ep (s.allocs (s.allocPtr + 1)) (16 * KB) }) :: s.procs)
        (s.allocs s.allocPtr) = some
        { pid := s.next_pid, name := nm, state := ProcessState.NEW, priority := pr,
          entry_point := ep, stack_base := s.allocs (s.allocPtr + 1), stack_size := 16 * KB,
          heap_base := s.allocs (s.allocPtr + 1 + 1), heap_size := 64 * KB,
          registers := initRegisters ep (s.allocs (s.allocPtr + 1)) (16 * KB) } := by
      simp [plook]
    simp only [process_set_state, hpl]
    rw [(add_queue_procs _ _ _), (remove_queue_procs _ _ _)]
    show (plook (supd _ (s.allocs s.allocPtr) _) (s.allocs s.allocPtr)).map _ = _
    rw [plook_supd_self _ (s.allocs s.allocPtr) _ _ hpl]
    rfl

theorem runOps_cons (s : MState) (op : Op) (ops : List Op) :
    runOps s (op :: ops) =
      ((runOps (execOp s op).1 ops).1,
       match (execOp s op).2 with
       | some pid => pid :: (runOps (execOp s op).1 ops).2
       | none => (runOps (execOp s op).1 ops).2) := rfl

/-- Master invariant of `runOps`: the pid log is the arithmetic sequence
`next_pid, next_pid + 1, ...` reduced mod `2^32`, and the final `next_pid`
has advanced by the number of successful creations (mod `2^32`).
Requires an allocator that never fails, so the only creation failures
are capacity failures (which consume no pid). -/
theorem runOps_pids (ops : List Op) : ∀ s : MState, (∀ n, s.allocs n ≠ 0) →
    s.next_pid < U32 →
    ∃ k, (runOps s ops).2 = (List.range k).map (fun j => (s.next_pid + j) % U32) ∧
      (runOps s ops).1.next_pid = (s.next_pid + k) % U32 ∧
      (∀ n, (runOps s ops).1.allocs n ≠ 0) := by
  induction ops with
  | nil =>
    intro s hall hnp
    refine ⟨0, rfl, ?_, hall⟩
    rw [Nat.add_zero, Nat.mod_eq_of_lt hnp]
    rfl
  | cons op ops ih =>
    intro s hall hnp
    cases op with
    | create nm pr ep =>
      by_cases hcap : MAX_PROCESSES ≤ s.process_count
      · have hexec : execOp s (Op.create nm pr ep) = (s, none) := by
          show (match process_create s nm pr ep with
                | (some i, s2) => (s2, (plook s2.procs i).map fun r => r.pid)
                | (none, s2) => (s2, none)) = (s, none)
          rw [create_fail_capacity s nm pr ep hcap]
        rw [runOps_cons, hexec]
        exact ih s hall hnp
      · have hcap2 : s.process_count < MAX_PROCESSES := Nat.lt_of_not_le hcap
        have hs := create_success_exec s nm pr ep hcap2 (hall _) (hall _) (hall _)
        have hexec : execOp s (Op.create nm pr ep) =
            ((process_create s nm pr ep).2, some s.next_pid) := by
          show (match process_create s nm pr ep with
                | (some i, s2) => (s2, (plook s2.procs i).map fun r => r.pid)
                | (none, s2) => (s2, none)) =
            ((process_create s nm pr ep).2, some s.next_pid)
          rcases hc : process_create s nm pr ep with ⟨o, s2⟩
          rw [hc] at hs
          cases o with
          | none => exact Option.noConfusion hs.1
          | some i =>
            have hi : i = s.allocs s.allocPtr := Option.some.inj hs.1
            subst hi
            show (s2, (plook s2.procs (s.allocs s.allocPtr)).map (fun r => r.pid)) =
              (s2, some s.next_pid)
            rw [hs.2.2]
        have hall2 : ∀ n, (process_create s nm pr ep).2.allocs n ≠ 0 := by
          intro n
          rw [create_allocs]
          exact hall n
        have hnp2 : (process_create s nm pr ep).2.next_pid < U32 := by
          rw [hs.2.1]
          exact Nat.mod_lt _ (by decide)
        obtain ⟨k, hlog, hnext, hall3⟩ := ih (process_create s nm pr ep).2 hall2 hnp2
        rw [runOps_cons, hexec]
        refine ⟨k + 1, ?_, ?_, hall3⟩
        · show s.next_pid :: (runOps (process_create s nm pr ep).2 ops).2 = _
          rw [hlog, hs.2.1, List.range_succ_eq_map, List.map_cons, List.map_map]
          congr 1
          · simp [Nat.mod_eq_of_lt hnp]
          · apply List.map_congr_left
            intro m hm
            rw [Nat.mod_add_mod]
            have h6 : s.next_pid + 1 + m = s.next_pid + Nat.succ m := by omega
            rw [h6]
            rfl
        · show (runOps (process_create s nm pr ep).2 ops).1.next_pid = _
          rw [hnext, hs.2.1, Nat.mod_add_mod]
          have h7 : s.next_pid + 1 + k = s.next_pid + (k + 1) := by omega
          rw [h7]
    | setStateByName nm st =>
      have hmisc := set_state_misc s (process_find s nm) st
      have hall2 : ∀ n, (process_set_state s (process_find s nm) st).2.allocs n ≠ 0 := by
        intro n
        rw [hmisc.2]
        exact hall n
      obtain ⟨k, hlog, hnext, hall3⟩ :=
        ih (process_set_state s (process_find s nm) st).2 hall2 (hmisc.1.symm ▸ hnp)
      rw [runOps_cons]
      refine ⟨k, ?_, ?_, hall3⟩
      · show (runOps (process_set_state s (process_find s nm) st).2 ops).2 = _
        rw [hlog, hmisc.1]
      · show (runOps (process_set_state s (process_find s nm) st).2 ops).1.next_pid = _
        rw [hnext, hmisc.1]
    | setStateByPid p st =>
      have hmisc := set_state_misc s (process_find_by_pid s p) st
      have hall2 : ∀ n, (process_set_state s (process_find_by_pid s p) st).2.allocs n ≠ 0 := by
        intro n
        rw [hmisc.2]
        exact hall n
      obtain ⟨k, hlog, hnext, hall3⟩ :=
        ih (process_set_state s (process_find_by_pid s p) st).2 hall2 (hmisc.1.symm ▸ hnp)
      rw [runOps_cons]
      refine ⟨k, ?_, ?_, hall3⟩
      · show (runOps (process_set_state s (process_find_by_pid s p) st).2 ops).2 = _
        rw [hlog, hmisc.1]
      · show (runOps (process_set_state s (process_find_by_pid s p) st).2 ops).1.next_pid = _
        rw [hnext, hmisc.1]
    | reap =>
      have hmisc := reap_misc s
      have hall2 : ∀ n, (process_reap_zombies s).allocs n ≠ 0 := by
        intro n
        rw [hmisc.2]
        exact hall n
      obtain ⟨k, hlog, hnext, hall3⟩ :=
        ih (process_reap_zombies s) hall2 (hmisc.1.symm ▸ hnp)
      rw [runOps_cons]
      refine ⟨k, ?_, ?_, hall3⟩
      · show (runOps (process_reap_zombies s) ops).2 = _
        rw [hlog, hmisc.1]
      · show (runOps (process_reap_zombies s) ops).1.next_pid = _
        rw [hnext, hmisc.1]

/-! ### Claim C5 -/

/-- Claim C5 (corrected, amended): pid values assigned by successful
creations are strictly increasing and never repeated *provided the total
number of successful creations stays below `2^32 - 1`*: `next_pid` is an
unsigned 32-bit counter (`proc->pid = next_pid++`), so after `2^32`
creations it wraps and pids repeat (see `c5_counterexample`). -/
theorem c5_amended_pid_monotone (ops : List Op)
    (h : (runOps initFresh ops).2.length ≤ U32 - 2) :
    List.Chain' (· < ·) (runOps initFresh ops).2 ∧ (runOps initFresh ops).2.Nodup := by
  have hall : ∀ n, initFresh.allocs n ≠ 0 := by
    intro n
    show seqAlloc n ≠ 0
    simp [seqAlloc]
  have hnp : initFresh.next_pid < U32 := by decide
  have hnp2 : initFresh.next_pid = 2 := by decide
  obtain ⟨k, hlog, hnext, hall2⟩ := runOps_pids ops initFresh hall hnp
  rw [hlog] at h ⊢
  rw [List.length_map, List.length_range] at h
  rw [hnp2]
  have hk : k ≤ 4294967294 := by
    rw [show U32 - 2 = 4294967294 from rfl] at h
    exact h
  have hmod : ∀ j ∈ List.range k, (2 + j) % U32 = 2 + j := by
    intro j hj
    have hjk : j < k := List.mem_range.mp hj
    exact Nat.mod_eq_of_lt (by rw [show U32 = 4294967296 from rfl]; omega)
  rw [List.map_congr_left hmod]
  have hpw : ((List.range k).map (fun j => 2 + j)).Pairwise (· < ·) := by
    apply List.pairwise_map.mpr
    exact List.Pairwise.imp_of_mem
      (fun ha hb hab => Nat.add_lt_add_left hab 2) (List.pairwise_lt_range k)
  exact ⟨hpw.chain', hpw.imp Nat.ne_of_lt⟩

/-- Witness for the amended C5: two creations on a fresh manager yield
pids 2 and 3, strictly increasing and distinct. -/
theorem c5_amended_pid_monotone_witness :
    (runOps initFresh [Op.create "P" 1 0, Op.create "Q" 1 0]).2.length ≤ U32 - 2 ∧
    (runOps initFresh [Op.create "P" 1 0, Op.create "Q" 1 0]).2 = [2, 3] ∧
    List.Chain' (· < ·) (runOps initFresh [Op.create "P" 1 0, Op.create "Q" 1 0]).2 ∧
    (runOps initFresh [Op.create "P" 1 0, Op.create "Q" 1 0]).2.Nodup :=
  ⟨by decide, by decide,
   (c5_amended_pid_monotone [Op.create "P" 1 0, Op.create "Q" 1 0] (by decide)).1,
   (c5_amended_pid_monotone [Op.create "P" 1 0, Op.create "Q" 1 0] (by decide)).2⟩

/-- The record of the idle process in a fresh `seqAlloc` manager. -/
def idleRec : ProcRec :=
  { pid := 1
    name := "idle"
    state := ProcessState.READY
    priority := 0
    entry_point := 0
    stack_base := 2
    stack_size := 16384
    heap_base := 3
    heap_size := 65536
    registers := [0, 16378, 0, 0, 0, 0, 0, 0, 0, 0, 0, 0, 0, 0, 0, 0] }

/-- The manager state reached between churn iterations: idle alone,
allocation cursor at `p`, pid counter at `v`, freed-address log `fl`. -/
def mkChurn (p v : Nat) (fl : List Nat) : MState :=
  { procs := [(1, idleRec)]
    process_table := some 1 :: List.replicate 15 none
    process_count := 1
    next_pid := v
    ready_queue := [1]
    blocked_queue := []
    zombie_queue := []
    current_process := none
    last := none
    cpuRegs := List.replicate 8 0
    allocs := seqAlloc
    allocPtr := p
    freedLog := fl }

theorem initFresh_eq_mkChurn : initFresh = mkChurn 3 2 [] := by rfl

/-- One churn iteration: create a process "x", transition it to ZOMBIE
through the core's own lookup, and reap it. -/
def churnBlock : List Op :=
  [Op.create "x" 1 0, Op.setStateByName "x" ProcessState.ZOMBIE, Op.reap]

def churnOps : Nat → List Op
  | 0 => []
  | n + 1 => churnBlock ++ churnOps n

def churnFreedFrom (p : Nat) : Nat → List Nat
  | 0 => []
  | n + 1 => [p + 2, p + 3, p + 1] ++ churnFreedFrom (p + 3) n

theorem runOps_append (l1 : List Op) : ∀ (s : MState) (l2 : List Op),
    runOps s (l1 ++ l2) =
      ((runOps (runOps s l1).1 l2).1,
       (runOps s l1).2 ++ (runOps (runOps s l1).1 l2).2) := by
  induction l1 with
  | nil =>
    intro s l2
    rfl
  | cons op l1 ih =>
    intro s l2
    show runOps s (op :: (l1 ++ l2)) = _
    rw [runOps_cons s op (l1 ++ l2), ih (execOp s op).1 l2, runOps_cons s op l1]
    cases he : (execOp s op).2 with
    | none => rfl
    | some pid => simp

/-- The PCB of the churn process "x" at allocation cursor `p`, pid `v`. -/
def xRecC (p v : Nat) (st : ProcessState) : ProcRec :=
  { pid := v
    name := "x"
    state := st
    priority := 1
    entry_point := 0
    stack_base := p + 2
    stack_size := 16 * KB
    heap_base := p + 3
    heap_size := 64 * KB
    registers := initRegisters 0 (p + 2) (16 * KB) }

/-- The manager state right after the churn iteration's creation. -/
def churnS1 (p v : Nat) (fl : List Nat) : MState :=
  { procs := [(p + 1, xRecC p v ProcessState.READY), (1, idleRec)]
    process_table := some 1 :: some (p + 1) :: List.replicate 14 none
    process_count := 2
    next_pid := (v + 1) % U32
    ready_queue := [p + 1, 1]
    blocked_queue := []
    zombie_queue := []
    current_process := none
    last := none
    cpuRegs := List.replicate 8 0
    allocs := seqAlloc
    allocPtr := p + 3
    freedLog := fl }
/-- The manager state after the churn iteration's ZOMBIE transition. -/
def churnS2 (p v : Nat) (fl : List Nat) : MState :=
  { procs := [(p + 1, xRecC p v ProcessState.ZOMBIE), (1, idleRec)]
    process_table := some 1 :: some (p + 1) :: List.replicate 14 none
    process_count := 2
    next_pid := (v + 1) % U32
    ready_queue := [1]
    blocked_queue := []
    zombie_queue := [p + 1]
    current_process := none
    last := none
    cpuRegs := List.replicate 8 0
    allocs := seqAlloc
    allocPtr := p + 3
    freedLog := fl }

theorem plook_cons_self (k : Nat) (r : ProcRec) (ps : List (Nat × ProcRec)) :
    plook ((k, r) :: ps) k = some r := by
  show (if k = k then some r else plook ps k) = some r
  rw [if_pos rfl]

theorem supd_cons_self (k : Nat) (r r2 : ProcRec) (ps : List (Nat × ProcRec)) :
    supd ((k, r) :: ps) k r2 = (k, r2) :: ps := by
  show (if k = k then (k, r2) :: ps else (k, r) :: supd ps k r2) = (k, r2) :: ps
  rw [if_pos rfl]

theorem qerase_cons_self (k : Nat) (xs : List Nat) : qerase (k :: xs) k = xs := by
  show (if k = k then xs else k :: qerase xs k) = xs
  rw [if_pos rfl]

theorem serase_cons_self (k : Nat) (r : ProcRec) (ps : List (Nat × ProcRec)) :
    serase ((k, r) :: ps) k = ps := by
  show (if k = k then ps else (k, r) :: serase ps k) = ps
  rw [if_pos rfl]

theorem clearFirst_cons_ne (o : Option Nat) (rest : List (Option Nat)) (i : Nat)
    (h : ¬ (o = some i)) : clearFirst (o :: rest) i = o :: clearFirst rest i := by
  show (if o = some i then none :: rest else o :: clearFirst rest i) = o :: clearFirst rest i
  rw [if_neg h]

theorem clearFirst_cons_self (i : Nat) (rest : List (Option Nat)) :
    clearFirst (some i :: rest) i = none :: rest := by
  show (if some i = some i then none :: rest else some i :: clearFirst rest i) = none :: rest
  rw [if_pos rfl]

theorem churn_create_raw (p v : Nat) (fl : List Nat) :
    process_create (mkChurn p v fl) "x" 1 0 = (some (p + 1), churnS1 p v fl) := by
  have h1 : ¬ (p + 1 = 0) := Nat.succ_ne_zero p
  have h2 : ¬ (p + 1 + 1 = 0) := Nat.succ_ne_zero (p + 1)
  have h3 : ¬ (p + 1 + 1 + 1 = 0) := Nat.succ_ne_zero (p + 1 + 1)
  unfold process_create
  dsimp only [mkChurn, MAX_PROCESSES, memAlloc, seqAlloc]
  rw [if_neg (by decide : ¬ ((16 : Nat) ≤ 1))]
  rw [if_neg h1, if_neg h2, if_neg h3]
  unfold process_set_state
  dsimp only
  rw [plook_cons_self]
  dsimp only
  rw [supd_cons_self]
  dsimp only [process_remove_from_queue, process_add_to_queue]
  rfl

theorem churn_exec1 (p v : Nat) (fl : List Nat) :
    execOp (mkChurn p v fl) (Op.create "x" 1 0) = (churnS1 p v fl, some v) := by
  unfold execOp
  dsimp only
  rw [churn_create_raw p v fl]
  dsimp only
  rw [show plook (churnS1 p v fl).procs (p + 1) = some (xRecC p v ProcessState.READY) from
    plook_cons_self (p + 1) (xRecC p v ProcessState.READY) [(1, idleRec)]]
  rfl

theorem churn_exec2 (p v : Nat) (hp : p ≠ 0) (fl : List Nat) :
    execOp (churnS1 p v fl) (Op.setStateByName "x" ProcessState.ZOMBIE) =
      (churnS2 p v fl, none) := by
  have h2 : ¬ (p + 1 = 1) := fun he => hp (by omega)
  have hf : process_find (churnS1 p v fl) "x" = some (p + 1) := by
    unfold process_find
    dsimp only [churnS1]
    rw [process_find.findName]
    rw [show plook [(p + 1, xRecC p v ProcessState.READY), (1, idleRec)] 1 = some idleRec from by
      rw [plook, if_neg h2]
      exact plook_cons_self 1 idleRec []]
    dsimp only
    rw [if_neg (by decide : ¬ (idleRec.name = "x"))]
    rw [process_find.findName]
    rw [plook_cons_self]
    dsimp only
    rw [if_pos (show (xRecC p v ProcessState.READY).name = "x" from rfl)]
  have hs : (process_set_state (churnS1 p v fl) (some (p + 1)) ProcessState.ZOMBIE).2 =
      churnS2 p v fl := by
    unfold process_set_state
    dsimp only [churnS1]
    rw [plook_cons_self]
    dsimp only
    rw [supd_cons_self]
    dsimp only [xRecC, process_remove_from_queue, process_add_to_queue]
    rw [qerase_cons_self]
    rfl
  unfold execOp
  dsimp only
  rw [hf, hs]

theorem churn_exec3 (p v : Nat) (hp : p ≠ 0) (fl : List Nat) :
    execOp (churnS2 p v fl) Op.reap =
      (mkChurn (p + 3) ((v + 1) % U32) (fl ++ [p + 2, p + 3, p + 1]), none) := by
  have h1 : ¬ ((some 1 : Option Nat) = some (p + 1)) := by
    intro he
    injection he with h
    exact hp (by omega)
  unfold execOp
  unfold process_reap_zombies
  dsimp only [churnS2]
  rw [List.foldl_cons, List.foldl_nil]
  unfold reapOne
  rw [plook_cons_self]
  dsimp only [xRecC]
  rw [if_pos (show p + 2 ≠ 0 from Nat.succ_ne_zero (p + 1))]
  dsimp only [memFree]
  rw [if_pos (show p + 3 ≠ 0 from Nat.succ_ne_zero (p + 2))]
  dsimp only [memFree]
  rw [clearFirst_cons_ne _ _ _ h1, clearFirst_cons_self]
  rw [serase_cons_self]
  rw [List.append_assoc, List.append_assoc]
  rfl

/-- Effect of one churn iteration on the inter-iteration state: the
allocation cursor advances by 3, the pid counter by 1 (mod `2^32`), the
freed log gains the iteration's stack/heap/PCB addresses, and the pid
the creation assigned is the old counter value `v`. -/
theorem churn_step (p v : Nat) (hp : p ≠ 0) (fl : List Nat) :
    runOps (mkChurn p v fl) churnBlock =
      (mkChurn (p + 3) ((v + 1) % U32) (fl ++ [p + 2, p + 3, p + 1]), [v]) := by
  show runOps (mkChurn p v fl)
      (Op.create "x" 1 0 :: Op.setStateByName "x" ProcessState.ZOMBIE :: Op.reap :: []) = _
  rw [runOps_cons, churn_exec1 p v fl]
  dsimp only
  rw [runOps_cons, churn_exec2 p v hp fl]
  dsimp only
  rw [runOps_cons, churn_exec3 p v hp fl]
  rfl

theorem churn_run_gen (n : Nat) : ∀ (p v : Nat) (fl : List Nat), p ≠ 0 → v < U32 →
    runOps (mkChurn p v fl) (churnOps n) =
      (mkChurn (p + 3 * n) ((v + n) % U32) (fl ++ churnFreedFrom p n),
       (List.range n).map (fun j => (v + j) % U32)) := by
  induction n with
  | zero =>
    intro p v fl hp hv
    show runOps (mkChurn p v fl) [] = _
    rw [show churnFreedFrom p 0 = [] from rfl, List.append_nil]
    rw [show (v + 0) % U32 = v by rw [Nat.add_zero, Nat.mod_eq_of_lt hv]]
    rfl
  | succ n ih =>
    intro p v fl hp hv
    show runOps (mkChurn p v fl) (churnBlock ++ churnOps n) = _
    rw [runOps_append, churn_step p v hp fl]
    have hv2 : (v + 1) % U32 < U32 := Nat.mod_lt _ (by decide)
    rw [ih (p + 3) ((v + 1) % U32) (fl ++ [p + 2, p + 3, p + 1]) (by omega) hv2]
    dsimp only
    rw [show churnFreedFrom p (n + 1) = [p + 2, p + 3, p + 1] ++ churnFreedFrom (p + 3) n from rfl]
    rw [← List.append_assoc]
    rw [show p + 3 * (n + 1) = p + 3 + 3 * n from by omega]
    rw [show (v + (n + 1)) % U32 = ((v + 1) % U32 + n) % U32 from by
      rw [Nat.mod_add_mod]
      rw [show v + 1 + n = v + (n + 1) from by omega]]
    congr 1
    rw [List.singleton_append, List.range_succ_eq_map, List.map_cons, List.map_map]
    congr 1
    · rw [Nat.add_zero, Nat.mod_eq_of_lt hv]
    · apply List.map_congr_left
      intro m hm
      show ((v + 1) % U32 + m) % U32 = (v + Nat.succ m) % U32
      rw [Nat.mod_add_mod]
      rw [show v + 1 + m = v + Nat.succ m from by omega]

theorem churn_run (n : Nat) :
    runOps initFresh (churnOps n) =
      (mkChurn (3 + 3 * n) ((2 + n) % U32) (churnFreedFrom 3 n),
       (List.range n).map (fun j => (2 + j) % U32)) := by
  rw [initFresh_eq_mkChurn, churn_run_gen n 3 2 [] (by decide) (by decide)]
  rw [List.nil_append]

/-- Counterexample to C5 as stated: running `2^32 + 1` churn iterations
(create, zombify, reap) from a fresh manager assigns pid 2 both to the
first creation and to creation number `2^32 + 1` — the `u32` pid counter
wraps, so the assigned pids are neither strictly increasing nor unique. -/
theorem c5_counterexample :
    ¬ (List.Chain' (· < ·) (runOps initFresh (churnOps (U32 + 1))).2 ∧
       (runOps initFresh (churnOps (U32 + 1))).2.Nodup) := by
  intro hcl
  rw [churn_run (U32 + 1)] at hcl
  dsimp only at hcl
  have h0 : (0 : Nat) ∈ List.range (U32 + 1) := List.mem_range.mpr (by omega)
  have hU : U32 ∈ List.range (U32 + 1) := List.mem_range.mpr (by omega)
  have hv0 : (2 + 0) % U32 = 2 := by decide
  have hvU : (2 + U32) % U32 = 2 := by
    rw [Nat.add_mod_right]
    decide
  have hinj := List.inj_on_of_nodup_map hcl.2 h0 hU (by rw [hv0, hvU])
  rw [show U32 = 4294967296 from rfl] at hinj
  exact absurd hinj (by omega)

end OpenSovix
